import Mathlib

/-!
# xen0tic/utils : the Concox / GT06 wire-protocol layer

A shallow embedding of `devices/concox/utilities.go` and of the frame
functions of `utils.go`.

Modelling conventions.

* A Go `byte` is a `Fin 256`; a `[]byte` is a `List Byte` whose capacity equals
  its length, so every index or slice expression that leaves `0 .. len` is a
  run-time panic.
* A Go expression that can panic is an `Option`: `none` is the panic, `some v`
  the value.  `&&` and `||` are the short-circuit `goAnd` and `goOr`.
* Go `int` index arithmetic such as `len(data)-4` is done in `Int`, so a
  negative bound is seen as such and not truncated to zero.
* The package variable `serialNumber` (a `uint16`) is passed explicitly: a
  function that touches it takes the old value and returns the new one.
-/

namespace Concox

/-! ## Bytes and slices -/

/-- A Go `byte`. -/
abbrev Byte := Fin 256

/-- The conversion `byte(n)` of a non-negative integer: reduction modulo 256. -/
def toByte (n : Nat) : Byte := ⟨n % 256, Nat.mod_lt n (by decide)⟩

/-- The index expression `s[i]`. -/
def index (s : List Byte) (i : Int) : Option Byte :=
  if 0 ≤ i ∧ i < s.length then s[i.toNat]? else none

/-- The slice expression `s[lo:hi]`. -/
def slice (s : List Byte) (lo hi : Int) : Option (List Byte) :=
  if 0 ≤ lo ∧ lo ≤ hi ∧ hi ≤ s.length then
    some ((s.drop lo.toNat).take (hi.toNat - lo.toNat))
  else none

/-- The assignment `s[i] = v`. -/
def setIndex (s : List Byte) (i : Int) (v : Byte) : Option (List Byte) :=
  if 0 ≤ i ∧ i < s.length then some (s.set i.toNat v) else none

/-- Short-circuit `a && b`: `b` is looked at only when `a` is true. -/
def goAnd (a b : Option Bool) : Option Bool :=
  match a with
  | none => none
  | some false => some false
  | some true => b

/-- Short-circuit `a || b`: `b` is looked at only when `a` is false. -/
def goOr (a b : Option Bool) : Option Bool :=
  match a with
  | none => none
  | some true => some true
  | some false => b

/-- The negation `!a`. -/
def goNot (a : Option Bool) : Option Bool := a.map not

/-! ## Protocol constants (`utilities.go`, lines 12-36) -/

def ParserLogin : Byte := 0x01
def ParserLocationX3 : Byte := 0x22
def ParserLocationGT06 : Byte := 0x12
def ParserStatus : Byte := 0x13
def ParserAlarmX3 : Byte := 0x26
def ParserAlarmX3V2 : Byte := 0x27
def ParserAlarmGT06 : Byte := 0x16
def ParserWifiInformation : Byte := 0x2c
def ParserLBSLocationX3 : Byte := 0x28
def ParserLBSLocationGT06 : Byte := 0x18
def ParserInformation : Byte := 0x94
def ParserTimeCalibration : Byte := 0x8a
def ParserOnlineCommand : Byte := 0xaf
def ParserOnlineCommandResponse : Byte := 0x15
def ParserOnlineCommandLongResponse : Byte := 0x21
def ParserOnlineCommandRequestStartBit : Byte := 0x70
def ParserStartBit : Byte := 0x78
def ParserLongStartBit : Byte := 0x79
def ParserEndBitFirst : Byte := 0x0d
def ParserEndBitEnd : Byte := 0x0a
def ParserTimeCalibrationLength : Byte := 0x0b
def ParserResponseLength : Byte := 0x05
def ParserOnlineCommandProtocol : Byte := 0x80

/-- The list returned by `validPackage()`. -/
def validPackage : List Byte :=
  [ ParserLogin,
    ParserStatus,
    ParserLocationGT06,
    ParserAlarmGT06,
    ParserTimeCalibration,
    ParserOnlineCommandResponse,
    ParserLBSLocationGT06,
    ParserInformation,
    ParserLocationX3,
    ParserOnlineCommandLongResponse,
    ParserAlarmX3,
    ParserLBSLocationX3 ]

/-! ## The sequence counter -/

/-- The function `GeneratePackageSN` on the counter value `serialNumber`: the returned pair
and the new counter value.  The increment is a `uint16` increment; the test
`serialNumber > 65535` is made on the incremented `uint16`. -/
def GeneratePackageSN (serialNumber : Nat) : (Byte × Byte) × Nat :=
  let sn := (serialNumber + 1) % 65536
  let sn := if sn > 65535 then 1 else sn
  ((toByte (sn >>> 8), toByte sn), sn)

/-! ## Checksum -/

/-- One bit of the reflected CRC register update, polynomial 0x1021 reflected
to 0x8408. -/
def crcShift (c : Nat) : Nat :=
  if c % 2 = 1 then (c >>> 1) ^^^ 0x8408 else c >>> 1

/-- The register after one more input byte. -/
def crcByte (c : Nat) (b : Byte) : Nat :=
  crcShift (crcShift (crcShift (crcShift (crcShift (crcShift (crcShift (crcShift
    (c ^^^ b.val))))))))

/-- Modelled from the spec: `crc.CalculateCRC(crc.X25, data)` belongs to the
imported package `github.com/snksoft/crc`, which is not part of the sources.  The
spec names it CRC-16/X25: reflected, polynomial 0x1021, initial value 0xFFFF,
final XOR 0xFFFF. -/
def CalculateCRC_X25 (data : List Byte) : Nat :=
  (data.foldl crcByte 0xFFFF) ^^^ 0xFFFF

/-- The function `GenerateCrc`: the high and the low byte of the checksum. -/
def GenerateCrc (data : List Byte) : Byte × Byte :=
  let ccittCrc := CalculateCRC_X25 data
  (toByte (ccittCrc >>> 8), toByte ccittCrc)

/-- The function `CrcChecker`: the checksum field against the checksum of the
bytes between the marker and that field. -/
def CrcChecker (data : List Byte) : Option Bool := do
  let crack ← slice data 2 ((data.length : Int) - 4)
  let dataC ← slice data ((data.length : Int) - 4) ((data.length : Int) - 2)
  let (crc1, crc2) := GenerateCrc crack
  pure (decide (dataC = [crc1, crc2]))

/-! ## Markers and validation -/

def GetStartBytes (input : List Byte) : Option (List Byte) :=
  slice input 0 2

def GetEndBytes (input : List Byte) : Option (List Byte) :=
  slice input ((input.length : Int) - 2) input.length

def IsNormalPackage (input : List Byte) : Option Bool :=
  (GetStartBytes input).map fun sb => decide (sb = [ParserStartBit, ParserStartBit])

def IsLongPackage (input : List Byte) : Option Bool :=
  (GetStartBytes input).map fun sb => decide (sb = [ParserLongStartBit, ParserLongStartBit])

def IsOnlineCommandRequest (input : List Byte) : Option Bool :=
  (GetStartBytes input).map fun sb =>
    decide (sb = [ParserOnlineCommandRequestStartBit, ParserOnlineCommandRequestStartBit])

def ValidateStartBytes (input : List Byte) : Option Bool :=
  goOr (goOr (IsNormalPackage input) (IsLongPackage input)) (IsOnlineCommandRequest input)

def IsPacketFromDevice (input : List Byte) : Option Bool :=
  goAnd (goOr (IsNormalPackage input) (IsLongPackage input)) (goNot (IsOnlineCommandRequest input))

def IsPacketFromSite (input : List Byte) : Option Bool :=
  goAnd (IsOnlineCommandRequest input)
    (goAnd (goNot (IsNormalPackage input)) (goNot (IsLongPackage input)))

def ValidateEndBytes (input : List Byte) : Option Bool :=
  (GetEndBytes input).map fun eb => decide (eb = [ParserEndBitFirst, ParserEndBitEnd])

/-- The function `GetPackageType`: the opcode byte. -/
def GetPackageType (input : List Byte) : Option Byte := do
  let sb ← GetStartBytes input
  if (← IsLongPackage sb) then index input 4 else index input 3

/-- The function `ValidatePackage`: the four tests, from left to right. -/
def ValidatePackage (input : List Byte) : Option Bool :=
  goAnd (goAnd (goAnd (ValidateStartBytes input) (ValidateEndBytes input))
    ((GetPackageType input).map fun t => validPackage.contains t))
    (CrcChecker input)

/-! ## Outbound frames -/

/-- The statement `copy(dst[lo:hi], src)`: the destination after the copy. -/
def copySlice (dst : List Byte) (lo hi : Int) (src : List Byte) : Option (List Byte) :=
  (slice dst lo hi).map fun window =>
    let k := min window.length src.length
    dst.take lo.toNat ++ src.take k ++ dst.drop (lo.toNat + k)

/-- The function `CreatePackageForDevice` on the message bytes and the counter value: the
frame and the new counter value. -/
def CreatePackageForDevice (message : List Byte) (serialNumber : Nat) :
    Option (List Byte × Nat) := do
  let result : List Byte := List.replicate (message.length + 15) 0
  let msg := message
  let result ← setIndex result 0 ParserStartBit
  let result ← setIndex result 1 ParserStartBit
  let result ← setIndex result 2 (toByte (message.length + 10))
  let result ← setIndex result 3 ParserOnlineCommandProtocol
  let ((sn1, sn2), serialNumber) := GeneratePackageSN serialNumber
  let result ← setIndex result ((result.length : Int) - 6) sn1
  let result ← setIndex result ((result.length : Int) - 5) sn2
  let result ← setIndex result 4 (toByte (message.length + 4))
  let result ← copySlice result 9 (9 + (msg.length : Int)) msg
  let (crc1, crc2) := GenerateCrc (← slice result 2 ((result.length : Int) - 4))
  let result ← setIndex result ((result.length : Int) - 4) crc1
  let result ← setIndex result ((result.length : Int) - 3) crc2
  let result ← setIndex result ((result.length : Int) - 2) ParserEndBitFirst
  let result ← setIndex result ((result.length : Int) - 1) ParserEndBitEnd
  pure (result, serialNumber)

/-! ## Hexadecimal text (`utils.go`) -/

/-- The lowercase hexadecimal digit of a value below 16. -/
def hexDigit (d : Nat) : Char :=
  if d < 10 then Char.ofNat (48 + d) else Char.ofNat (87 + d)

/-- The text of `fmt.Sprintf("%02x", item)` for a byte. -/
def sprintf02x (item : Byte) : List Char :=
  [hexDigit (item.val / 16), hexDigit (item.val % 16)]

/-- The function `ConvertByteToHex`: two digits for each byte. -/
def ConvertByteToHex (input : List Byte) : List (List Char) :=
  input.foldl (fun arr item => arr ++ [sprintf02x item]) []

/-- The function `ConvertByteToString`: the digits strung together. -/
def ConvertByteToString (input : List Byte) : List Char :=
  (ConvertByteToHex input).foldl (fun result item => result ++ item) []

/-- The value of a base-16 digit, as `strconv` reads it. -/
def hexDigitVal (c : Char) : Option Nat :=
  if 48 ≤ c.toNat ∧ c.toNat ≤ 57 then some (c.toNat - 48)
  else if 97 ≤ c.toNat ∧ c.toNat ≤ 102 then some (c.toNat - 97 + 10)
  else if 65 ≤ c.toNat ∧ c.toNat ≤ 70 then some (c.toNat - 65 + 10)
  else none

/-- The digit loop of `strconv.ParseUint(s, 16, 64)` behind the digits already
read: `none` is a syntax error; a value past 64 bits ends the loop with
`2^64 - 1` (the range error). -/
def parseUintDigits (acc : Nat) : List Char → Option Nat
  | [] => some acc
  | c :: cs =>
    match hexDigitVal c with
    | none => none
    | some d =>
      if acc * 16 + d ≥ 2 ^ 64 then some (2 ^ 64 - 1)
      else parseUintDigits (acc * 16 + d) cs

/-- The call `strconv.ParseUint(s, 16, 64)`: the empty string is a syntax error. -/
def ParseUint16 (s : List Char) : Option Nat :=
  match s with
  | [] => none
  | _ :: _ => parseUintDigits 0 s

/-- The call `strconv.ParseInt(s, 16, 64)`, the value only (every caller drops the
error): 0 on a syntax error, the nearest bound on a range error. -/
def ParseInt16 (s : List Char) : Int :=
  match s with
  | [] => 0
  | c :: r =>
    let neg : Bool := decide (c = '-')
    let digits : List Char := if c = '+' ∨ c = '-' then r else c :: r
    match ParseUint16 digits with
    | none => 0
    | some un =>
      if neg then (if un > 2 ^ 63 then -(2 ^ 63 : Int) else -(un : Int))
      else (if un ≥ 2 ^ 63 then (2 ^ 63 : Int) - 1 else (un : Int))

/-! ## The frame splitter (`utils.go`, `SplitPackage`) -/

/-- Lines 263-269 of `SplitPackage`: the frame length `iLen` read from the
header. -/
def frameLen (input : List Byte) : Option Int := do
  let b ← index input 2
  let iLen : Int := (b.val : Int)
  let iLen ← (do
    if (← IsLongPackage input) then
      let fd := ParseInt16 (ConvertByteToString (← slice input 2 4))
      pure (fd + 1)
    else pure iLen)
  pure (iLen + 5)

/-- The body of `SplitPackage`; `self` stands for the recursive call on line
277. -/
def SplitPackageBody (self : List Byte → List (List Byte) → Option (List (List Byte)))
    (input : List Byte) (array : List (List Byte)) : Option (List (List Byte)) :=
  if input.length < 10 then some array
  else
    match goAnd (goNot (IsNormalPackage input)) (goNot (IsLongPackage input)) with
    | none => none
    | some true => some array
    | some false =>
      match frameLen input with
      | none => none
      | some iLen =>
        if (input.length : Int) = iLen then some (array ++ [input])
        else if (input.length : Int) > iLen then
          match slice input 0 iLen with
          | none => none
          | some candidate =>
            match ValidatePackage candidate with
            | none => none
            | some valid =>
              match slice input iLen input.length with
              | none => none
              | some rest => self rest (if valid then array ++ [candidate] else array)
        else some array

/-- The recursion of `SplitPackage` unrolled at most `fuel` times; `none` when
the fuel is used up. -/
def SplitPackageFuel : Nat → List Byte → List (List Byte) → Option (List (List Byte))
  | 0 => fun _ _ => none
  | fuel + 1 => SplitPackageBody (SplitPackageFuel fuel)

/-- The function `SplitPackage`.  Each recursive call is on a strictly shorter buffer, so
`len(input) + 1` unrollings are never used up (`SplitPackage_unfold`). -/
def SplitPackage (input : List Byte) (array : List (List Byte)) : Option (List (List Byte)) :=
  SplitPackageFuel (input.length + 1) input array

/-! ## Sequence number and device identifier (`utils.go`)

A Go `string` is the list of its characters; every string of these functions is
ASCII, so its length in bytes is the length of the list. -/

/-- The slice expression `s[lo:hi]` on a slice or a string of any element type. -/
def sliceOf {α : Type} (s : List α) (lo hi : Int) : Option (List α) :=
  if 0 ≤ lo ∧ lo ≤ hi ∧ hi ≤ s.length then
    some ((s.drop lo.toNat).take (hi.toNat - lo.toNat))
  else none

/-- The value of a base-10 digit, as `strconv` reads it. -/
def decDigitVal (c : Char) : Option Nat :=
  if 48 ≤ c.toNat ∧ c.toNat ≤ 57 then some (c.toNat - 48) else none

/-- The digit loop of `strconv.ParseUint(s, 10, 64)` behind the digits already
read: `none` is a syntax error; a value past 64 bits ends the loop with
`2^64 - 1` (the range error). -/
def parseDecDigits (acc : Nat) : List Char → Option Nat
  | [] => some acc
  | c :: cs =>
    match decDigitVal c with
    | none => none
    | some d =>
      if acc * 10 + d ≥ 2 ^ 64 then some (2 ^ 64 - 1)
      else parseDecDigits (acc * 10 + d) cs

/-- The call `strconv.ParseUint(s, 10, 64)`: the empty string is a syntax error. -/
def ParseUint10 (s : List Char) : Option Nat :=
  match s with
  | [] => none
  | _ :: _ => parseDecDigits 0 s

/-- The call `strconv.Atoi(s)` on a 64-bit platform, the value only (the caller
drops the error): an optional sign and decimal digits; 0 on a syntax error,
the nearest bound on a range error. -/
def Atoi (s : List Char) : Int :=
  match s with
  | [] => 0
  | c :: r =>
    let neg : Bool := decide (c = '-')
    let digits : List Char := if c = '+' ∨ c = '-' then r else c :: r
    match ParseUint10 digits with
    | none => 0
    | some un =>
      if neg then (if un > 2 ^ 63 then -(2 ^ 63 : Int) else -(un : Int))
      else (if un ≥ 2 ^ 63 then (2 ^ 63 : Int) - 1 else (un : Int))

/-- The function `GetPackageSn`: the hex digits of the bytes at offsets 12 and 13.  The
slice `arr[12:14]` is taken within the length of `arr`, as every slice here. -/
def GetPackageSn (input : List Byte) : Option (List Char) := do
  let arr := ConvertByteToHex input
  let tmp ← sliceOf arr 12 14
  pure (tmp.foldl (fun result item => result ++ item) [])

/-- The function `GetPackageSnInNumber`: `strconv.Atoi` of the text of `GetPackageSn`. -/
def GetPackageSnInNumber (input : List Byte) : Option Int :=
  (GetPackageSn input).map Atoi

/-- The function `LeftPad2Len`.  The division is the truncating division of Go
and panics on a zero divisor; `strings.Repeat` panics on a negative count. -/
def LeftPad2Len (s padStr : List Char) (overallLen : Int) : Option (List Char) :=
  if padStr.length = 0 then none
  else
    let padCountInt : Int :=
      1 + Int.tdiv (overallLen - (padStr.length : Int)) (padStr.length : Int)
    if padCountInt < 0 then none
    else
      let retStr : List Char := (List.replicate padCountInt.toNat padStr).flatten ++ s
      sliceOf retStr ((retStr.length : Int) - overallLen) retStr.length

/-- The function `GetDeviceImei`: the hex digits of the bytes at offsets 4 to 11 without
the first digit, padded to 15 characters. -/
def GetDeviceImei (input : List Byte) : Option (List Char) := do
  let tmp ← slice input 4 12
  let result : List Char := tmp.foldl (fun result item => result ++ sprintf02x item) []
  LeftPad2Len (← sliceOf result 1 result.length) ['0'] 15

/-! ## Vocabulary of the statements -/

/-- The offset of the opcode byte: 4 behind a Long marker, 3 otherwise. -/
def opcodeOffset (frame : List Byte) : Nat :=
  if frame.take 2 = [0x79, 0x79] then 4 else 3

/-- The frame length that the header of `input` declares: the length byte plus 5
behind a Normal marker, the big-endian pair of bytes 2 and 3 plus 1 plus 5
behind a Long marker. -/
def headerLen (input : List Byte) : Int :=
  if input.take 2 = [0x79, 0x79] then
    256 * ((input.getD 2 0).val : Int) + ((input.getD 3 0).val : Int) + 1 + 5
  else ((input.getD 2 0).val : Int) + 5

/-- A complete valid frame, as the splitter contract uses the words: accepted by
`ValidatePackage`, behind a Normal or a Long marker, and as long on the wire as
its header declares. -/
def CompleteFrame (f : List Byte) : Prop :=
  ValidatePackage f = some true ∧
  (IsNormalPackage f = some true ∨ IsLongPackage f = some true) ∧
  frameLen f = some (f.length : Int)

instance (f : List Byte) : Decidable (CompleteFrame f) := by
  unfold CompleteFrame
  infer_instance

/-- A valid Normal frame of 8 bytes: length byte 3, opcode 0x01 (login), no
payload and no sequence number, checksum 0x34A6 over `03 01`. -/
def shortFrame : List Byte := [0x78, 0x78, 0x03, 0x01, 0x34, 0xa6, 0x0d, 0x0a]

/-- The login frame `78 78 05 01 00 01 D9 DC 0D 0A`. -/
def loginFrame : List Byte := [0x78, 0x78, 0x05, 0x01, 0x00, 0x01, 0xd9, 0xdc, 0x0d, 0x0a]

/-- A Long frame of 10 bytes: length field 0x0004, opcode 0x94. -/
def longFrame : List Byte :=
  let body : List Byte := [0x00, 0x04, 0x94, 0x00]
  [0x79, 0x79] ++ body ++ [(GenerateCrc body).1, (GenerateCrc body).2, 0x0d, 0x0a]

/-- The frame of `CreatePackageForDevice`, written out: marker, the two length
bytes around the opcode, four zero bytes, the message, the sequence pair, the
checksum of everything behind the marker, the end marker. -/
def createdFrame (message : List Byte) (sn : Byte × Byte) : List Byte :=
  let body : List Byte :=
    [toByte (message.length + 10), ParserOnlineCommandProtocol, toByte (message.length + 4),
      0, 0, 0, 0] ++ message ++ [sn.1, sn.2]
  [ParserStartBit, ParserStartBit] ++ body ++
    [(GenerateCrc body).1, (GenerateCrc body).2, ParserEndBitFirst, ParserEndBitEnd]

/-- The 16-bit value that a big-endian byte pair encodes. -/
def pairValue (p : Byte × Byte) : Nat := 256 * p.1.val + p.2.val

/-- The pairs returned by `n` sequential calls of `GeneratePackageSN` that start
with the counter at `serialNumber`. -/
def sequenceNumbers : Nat → Nat → List (Byte × Byte)
  | 0, _ => []
  | n + 1, serialNumber =>
    (GeneratePackageSN serialNumber).1 :: sequenceNumbers n (GeneratePackageSN serialNumber).2

/-- The two bytes of a built frame that precede its checksum field. -/
def sequenceField (frame : List Byte) : List Byte :=
  (frame.drop (frame.length - 6)).take 2

/-- The byte `b` with its bit `k` flipped. -/
def flipBit (b : Byte) (k : Nat) : Byte := toByte (b.val ^^^ (1 <<< k))

/-- The frame with bit `k` of the byte at offset `i` flipped. -/
def flipBitAt (frame : List Byte) (i k : Nat) : List Byte :=
  match frame[i]? with
  | some b => frame.set i (flipBit b k)
  | none => frame

/-- A Normal frame with the opcode 0x2C (WiFi information): length byte 5,
sequence number 1, checksum 0x2598 over `05 2C 00 01`. -/
def wifiFrame : List Byte := [0x78, 0x78, 0x05, 0x2c, 0x00, 0x01, 0x25, 0x98, 0x0d, 0x0a]

/-- A Normal frame with the opcode 0x27 (alarm): length byte 5, sequence number
1, checksum 0x0C3E over `05 27 00 01`. -/
def alarmV2Frame : List Byte := [0x78, 0x78, 0x05, 0x27, 0x00, 0x01, 0x0c, 0x3e, 0x0d, 0x0a]

/-- A buffer of 14 bytes whose bytes at offsets 12 and 13 are `hi` and `lo`. -/
def snFrame (hi lo : Byte) : List Byte := List.replicate 12 0 ++ [hi, lo]

/-- The first 12 bytes of a login frame of the device 123456789012345. -/
def imeiFrame : List Byte :=
  [0x78, 0x78, 0x11, 0x01, 0x01, 0x23, 0x45, 0x67, 0x89, 0x01, 0x23, 0x45]

/-! # Theorems -/

/-! ## Basic facts about slices -/

theorem slice_of_le (s : List Byte) (lo hi : Nat) (h1 : lo ≤ hi) (h2 : hi ≤ s.length) :
    slice s (lo : Int) (hi : Int) = some ((s.drop lo).take (hi - lo)) := by
  unfold slice
  rw [if_pos (by omega)]
  simp

theorem slice_eq_some (s r : List Byte) (lo hi : Int) (h : slice s lo hi = some r) :
    0 ≤ lo ∧ lo ≤ hi ∧ hi ≤ s.length ∧ r = (s.drop lo.toNat).take (hi.toNat - lo.toNat) := by
  unfold slice at h
  split at h
  · rename_i hc
    simp only [Option.some.injEq] at h
    exact ⟨hc.1, hc.2.1, hc.2.2, h.symm⟩
  · exact absurd h (by simp)

theorem index_of_lt (s : List Byte) (i : Nat) (h : i < s.length) :
    index s (i : Int) = some (s.get ⟨i, h⟩) := by
  unfold index
  rw [if_pos (by omega)]
  simp [List.getElem?_eq_getElem h]

theorem GetStartBytes_of_le (input : List Byte) (h : 2 ≤ input.length) :
    GetStartBytes input = some (input.take 2) := by
  have := slice_of_le input 0 2 (by omega) h
  simpa [GetStartBytes] using this

theorem GetEndBytes_of_le (input : List Byte) (h : 2 ≤ input.length) :
    GetEndBytes input = some (input.drop (input.length - 2)) := by
  have := slice_of_le input (input.length - 2) input.length (by omega) (le_refl _)
  have e : ((input.length - 2 : Nat) : Int) = (input.length : Int) - 2 := by omega
  rw [e] at this
  rw [GetEndBytes, this]
  congr 1
  apply List.take_of_length_le
  simp

theorem IsNormalPackage_of_le (input : List Byte) (h : 2 ≤ input.length) :
    IsNormalPackage input = some (decide (input.take 2 = [0x78, 0x78])) := by
  simp [IsNormalPackage, GetStartBytes_of_le input h, ParserStartBit]

theorem IsLongPackage_of_le (input : List Byte) (h : 2 ≤ input.length) :
    IsLongPackage input = some (decide (input.take 2 = [0x79, 0x79])) := by
  simp [IsLongPackage, GetStartBytes_of_le input h, ParserLongStartBit]

theorem IsOnlineCommandRequest_of_le (input : List Byte) (h : 2 ≤ input.length) :
    IsOnlineCommandRequest input = some (decide (input.take 2 = [0x70, 0x70])) := by
  simp [IsOnlineCommandRequest, GetStartBytes_of_le input h, ParserOnlineCommandRequestStartBit]

theorem ValidateStartBytes_of_le (input : List Byte) (h : 2 ≤ input.length) :
    ValidateStartBytes input = some (decide (input.take 2 = [0x78, 0x78] ∨
      input.take 2 = [0x79, 0x79] ∨ input.take 2 = [0x70, 0x70])) := by
  rw [ValidateStartBytes, IsNormalPackage_of_le input h, IsLongPackage_of_le input h,
    IsOnlineCommandRequest_of_le input h]
  by_cases h1 : input.take 2 = [0x78, 0x78] <;> by_cases h2 : input.take 2 = [0x79, 0x79] <;>
    by_cases h3 : input.take 2 = [0x70, 0x70] <;> simp [h1, h2, h3, goOr]

theorem ValidateEndBytes_of_le (input : List Byte) (h : 2 ≤ input.length) :
    ValidateEndBytes input = some (decide (input.drop (input.length - 2) = [0x0d, 0x0a])) := by
  simp [ValidateEndBytes, GetEndBytes_of_le input h, ParserEndBitFirst, ParserEndBitEnd]

theorem GetPackageType_of_le (input : List Byte) (h : 5 ≤ input.length) :
    GetPackageType input =
      if input.take 2 = [0x79, 0x79] then input[4]? else input[3]? := by
  have h4 : index input 4 = input[4]? := by
    have := index_of_lt input 4 (by omega)
    simpa [List.getElem?_eq_getElem (show 4 < input.length by omega)] using this
  have h3 : index input 3 = input[3]? := by
    have := index_of_lt input 3 (by omega)
    simpa [List.getElem?_eq_getElem (show 3 < input.length by omega)] using this
  have hl : IsLongPackage (input.take 2) = some (decide (input.take 2 = [0x79, 0x79])) := by
    have := IsLongPackage_of_le (input.take 2) (by simp; omega)
    rwa [List.take_take, Nat.min_self] at this
  simp only [GetPackageType, GetStartBytes_of_le input (by omega), hl, h4, h3, Option.bind_eq_bind,
    Option.some_bind, Option.pure_def]
  by_cases hc : input.take 2 = [0x79, 0x79] <;> simp [hc]

theorem CrcChecker_of_le (data : List Byte) (h : 6 ≤ data.length) :
    CrcChecker data = some (decide ((data.drop (data.length - 4)).take 2 =
      [(GenerateCrc ((data.drop 2).take (data.length - 6))).1,
       (GenerateCrc ((data.drop 2).take (data.length - 6))).2])) := by
  have s1 := slice_of_le data 2 (data.length - 4) (by omega) (by omega)
  have s2 := slice_of_le data (data.length - 4) (data.length - 2) (by omega) (by omega)
  have e1 : ((data.length - 4 : Nat) : Int) = (data.length : Int) - 4 := by omega
  have e2 : ((data.length - 2 : Nat) : Int) = (data.length : Int) - 2 := by omega
  have e3 : data.length - 4 - 2 = data.length - 6 := by omega
  have e4 : data.length - 2 - (data.length - 4) = 2 := by omega
  rw [e1] at s1 s2
  rw [e2] at s2
  rw [e3] at s1
  rw [e4] at s2
  simp only [Nat.cast_ofNat] at s1
  simp [CrcChecker, s1, s2]

theorem GetPackageType_eq_some (input : List Byte) (h : 5 ≤ input.length) :
    ∃ op, GetPackageType input = some op ∧ input[opcodeOffset input]? = some op := by
  rw [GetPackageType_of_le input h, opcodeOffset]
  by_cases hc : input.take 2 = [0x79, 0x79]
  · simp only [hc, if_true]
    exact ⟨input[4], by simp [List.getElem?_eq_getElem (show 4 < input.length by omega)]⟩
  · simp only [hc, if_false]
    exact ⟨input[3], by simp [List.getElem?_eq_getElem (show 3 < input.length by omega)]⟩

/-- C2. A frame of at least 6 bytes is accepted by `ValidatePackage` exactly
when its first two bytes are one of the three start markers, its last two bytes
are 0x0D 0x0A, its opcode byte (offset 4 behind the Long marker, offset 3
otherwise) is in `validPackage` and `CrcChecker` accepts it; when one of the four
fails the answer is `false`. -/
theorem ValidatePackage_iff_four_conditions (frame : List Byte) (h : 6 ≤ frame.length) :
    (ValidatePackage frame = some true ↔
      ((frame.take 2 = [0x78, 0x78] ∨ frame.take 2 = [0x79, 0x79] ∨ frame.take 2 = [0x70, 0x70]) ∧
        frame.drop (frame.length - 2) = [0x0d, 0x0a] ∧
        (∃ op, frame[opcodeOffset frame]? = some op ∧ op ∈ validPackage) ∧
        CrcChecker frame = some true)) ∧
    (ValidatePackage frame = some false ↔
      ¬ ((frame.take 2 = [0x78, 0x78] ∨ frame.take 2 = [0x79, 0x79] ∨ frame.take 2 = [0x70, 0x70]) ∧
        frame.drop (frame.length - 2) = [0x0d, 0x0a] ∧
        (∃ op, frame[opcodeOffset frame]? = some op ∧ op ∈ validPackage) ∧
        CrcChecker frame = some true)) := by
  obtain ⟨op, hop, hidx⟩ := GetPackageType_eq_some frame (by omega)
  have hcrc := CrcChecker_of_le frame h
  rw [ValidatePackage, ValidateStartBytes_of_le frame (by omega),
    ValidateEndBytes_of_le frame (by omega), hop, hidx]
  generalize CrcChecker frame = c at hcrc ⊢
  subst hcrc
  by_cases h1 : (frame.take 2 = [0x78, 0x78] ∨ frame.take 2 = [0x79, 0x79] ∨
      frame.take 2 = [0x70, 0x70]) <;>
    by_cases h2 : frame.drop (frame.length - 2) = [0x0d, 0x0a] <;>
    by_cases h3 : op ∈ validPackage <;>
    by_cases h4 : ((frame.drop (frame.length - 4)).take 2 =
      [(GenerateCrc ((frame.drop 2).take (frame.length - 6))).1,
       (GenerateCrc ((frame.drop 2).take (frame.length - 6))).2]) <;>
    simp [h1, h2, h3, h4, goAnd]

theorem ValidatePackage_iff_four_conditions_witness :
    6 ≤ loginFrame.length ∧
    ((ValidatePackage loginFrame = some true ↔
      ((loginFrame.take 2 = [0x78, 0x78] ∨ loginFrame.take 2 = [0x79, 0x79] ∨
          loginFrame.take 2 = [0x70, 0x70]) ∧
        loginFrame.drop (loginFrame.length - 2) = [0x0d, 0x0a] ∧
        (∃ op, loginFrame[opcodeOffset loginFrame]? = some op ∧ op ∈ validPackage) ∧
        CrcChecker loginFrame = some true)) ∧
    (ValidatePackage loginFrame = some false ↔
      ¬ ((loginFrame.take 2 = [0x78, 0x78] ∨ loginFrame.take 2 = [0x79, 0x79] ∨
          loginFrame.take 2 = [0x70, 0x70]) ∧
        loginFrame.drop (loginFrame.length - 2) = [0x0d, 0x0a] ∧
        (∃ op, loginFrame[opcodeOffset loginFrame]? = some op ∧ op ∈ validPackage) ∧
        CrcChecker loginFrame = some true))) :=
  ⟨by decide, ValidatePackage_iff_four_conditions loginFrame (by decide)⟩

/-! ## Hexadecimal text read back -/

theorem hexDigitVal_hexDigit (d : Nat) (h : d < 16) : hexDigitVal (hexDigit d) = some d := by
  have key : ∀ e : Fin 16, hexDigitVal (hexDigit e.val) = some e.val := by decide
  exact key ⟨d, h⟩

theorem ConvertByteToString_pair (a b : Byte) :
    ConvertByteToString [a, b] =
      [hexDigit (a.val / 16), hexDigit (a.val % 16), hexDigit (b.val / 16), hexDigit (b.val % 16)] := by
  simp [ConvertByteToString, ConvertByteToHex, sprintf02x]

theorem hexDigit_ne_sign (d : Nat) (h : d < 16) : hexDigit d ≠ '+' ∧ hexDigit d ≠ '-' := by
  have key : ∀ e : Fin 16, hexDigit e.val ≠ '+' ∧ hexDigit e.val ≠ '-' := by decide
  exact key ⟨d, h⟩

theorem ParseInt16_pair (a b : Byte) :
    ParseInt16 (ConvertByteToString [a, b]) = 256 * (a.val : Int) + (b.val : Int) := by
  have ha := a.isLt
  have hb := b.isLt
  have h1 : a.val / 16 < 16 := by omega
  have h2 : a.val % 16 < 16 := by omega
  have h3 : b.val / 16 < 16 := by omega
  have h4 : b.val % 16 < 16 := by omega
  have hs := hexDigit_ne_sign _ h1
  have e : (((0 * 16 + a.val / 16) * 16 + a.val % 16) * 16 + b.val / 16) * 16 + b.val % 16 =
      256 * a.val + b.val := by omega
  have p1 : ¬ (0 * 16 + a.val / 16 ≥ 2 ^ 64) := by omega
  have p2 : ¬ ((0 * 16 + a.val / 16) * 16 + a.val % 16 ≥ 2 ^ 64) := by omega
  have p3 : ¬ (((0 * 16 + a.val / 16) * 16 + a.val % 16) * 16 + b.val / 16 ≥ 2 ^ 64) := by omega
  have p4 : ¬ ((((0 * 16 + a.val / 16) * 16 + a.val % 16) * 16 + b.val / 16) * 16 + b.val % 16
      ≥ 2 ^ 64) := by omega
  have p5 : ¬ (256 * a.val + b.val ≥ 2 ^ 64) := by omega
  have hu : ParseUint16 [hexDigit (a.val / 16), hexDigit (a.val % 16), hexDigit (b.val / 16),
      hexDigit (b.val % 16)] = some (256 * a.val + b.val) := by
    simp only [ParseUint16, parseUintDigits, hexDigitVal_hexDigit _ h1, hexDigitVal_hexDigit _ h2,
      hexDigitVal_hexDigit _ h3, hexDigitVal_hexDigit _ h4, if_neg p1, if_neg p2, if_neg p3,
      if_neg p4, e, if_neg p5]
  have hlt : ¬ (256 * a.val + b.val ≥ 2 ^ 63) := by omega
  rw [ConvertByteToString_pair]
  simp only [ParseInt16, hs.1, hs.2, or_self, if_false, decide_False, hu, if_neg hlt]
  simp

theorem frameLen_eq (input : List Byte) (h : 4 ≤ input.length) :
    frameLen input = some (headerLen input) := by
  match input, h with
  | a :: b :: c :: d :: rest, _ =>
    have hl := IsLongPackage_of_le (a :: b :: c :: d :: rest) (by simp)
    have hs := slice_of_le (a :: b :: c :: d :: rest) 2 4 (by omega) (by simp)
    have hi := index_of_lt (a :: b :: c :: d :: rest) 2 (by simp)
    simp only [Nat.cast_ofNat] at hs hi
    simp only [frameLen, hl, hs, hi, headerLen]
    by_cases hc : a = 0x79 ∧ b = 0x79
    · simp [hc, ParseInt16_pair]
    · simp [hc]

theorem headerLen_ge (input : List Byte) : 5 ≤ headerLen input := by
  unfold headerLen
  split <;> omega

theorem slice_upto (s : List Byte) (n : Int) (h0 : 0 ≤ n) (h : n ≤ s.length) :
    slice s 0 n = some (s.take n.toNat) := by
  unfold slice
  rw [if_pos ⟨le_refl _, h0, h⟩]
  simp

theorem slice_from (s : List Byte) (n : Int) (h0 : 0 ≤ n) (h : n ≤ s.length) :
    slice s n s.length = some (s.drop n.toNat) := by
  unfold slice
  rw [if_pos ⟨h0, h, le_refl _⟩]
  congr 1
  apply List.take_of_length_le
  simp

/-- On five bytes the opcode test fails whenever the end marker is right, so
`CrcChecker` is never reached. -/
theorem ValidatePackage_five (a b c d e : Byte) :
    ValidatePackage [a, b, c, d, e] = some false := by
  have hs := ValidateStartBytes_of_le [a, b, c, d, e] (by simp)
  have he := ValidateEndBytes_of_le [a, b, c, d, e] (by simp)
  have hp := GetPackageType_of_le [a, b, c, d, e] (by simp)
  have n10 : (10 : Byte) ∉ validPackage := by decide
  have n13 : (13 : Byte) ∉ validPackage := by decide
  rw [ValidatePackage, hs, he, hp]
  by_cases h2 : d = 0x0d ∧ e = 0x0a
  · obtain ⟨rfl, rfl⟩ := h2
    by_cases h1 : a = 0x79 ∧ b = 0x79
    · obtain ⟨rfl, rfl⟩ := h1
      simp [goAnd, n10]
    · by_cases h3 : (a = 0x78 ∧ b = 0x78) ∨ (a = 0x70 ∧ b = 0x70)
      · simp [goAnd, h1, h3, n13]
      · have h3a : ¬ (a = 0x78 ∧ b = 0x78) := fun h => h3 (Or.inl h)
        have h3b : ¬ (a = 0x70 ∧ b = 0x70) := fun h => h3 (Or.inr h)
        simp [goAnd, h1, h3a, h3b]
  · by_cases h1 : (a = 0x78 ∧ b = 0x78) ∨ (a = 0x79 ∧ b = 0x79) ∨ (a = 0x70 ∧ b = 0x70)
    · simp [goAnd, h1, h2]
    · simp [goAnd, h1, h2]

theorem ValidatePackage_total (f : List Byte) (h : 5 ≤ f.length) :
    ∃ v, ValidatePackage f = some v := by
  by_cases h6 : 6 ≤ f.length
  · obtain ⟨op, hop, -⟩ := GetPackageType_eq_some f (by omega)
    rw [ValidatePackage, ValidateStartBytes_of_le f (by omega),
      ValidateEndBytes_of_le f (by omega), hop, CrcChecker_of_le f h6]
    generalize decide (f.take 2 = [0x78, 0x78] ∨ f.take 2 = [0x79, 0x79] ∨
      f.take 2 = [0x70, 0x70]) = x
    generalize decide (f.drop (f.length - 2) = [0x0d, 0x0a]) = y
    generalize decide ((f.drop (f.length - 4)).take 2 = _) = w
    by_cases hz : op ∈ validPackage <;> cases x <;> cases y <;> simp [goAnd, hz]
  · match f, h, h6 with
    | [a, b, c, d, e], _, _ => exact ⟨false, ValidatePackage_five a b c d e⟩
    | _ :: _ :: _ :: _ :: _ :: _ :: _, _, h6 => exact absurd (by simp) h6

/-! ## The splitter, case by case -/

theorem SplitPackageBody_short (self : List Byte → List (List Byte) → Option (List (List Byte)))
    (input : List Byte) (array : List (List Byte)) (h : input.length < 10) :
    SplitPackageBody self input array = some array := by
  simp [SplitPackageBody, h]

theorem SplitPackageBody_marker (self : List Byte → List (List Byte) → Option (List (List Byte)))
    (input : List Byte) (array : List (List Byte)) (h : 10 ≤ input.length)
    (hn : input.take 2 ≠ [0x78, 0x78]) (hl : input.take 2 ≠ [0x79, 0x79]) :
    SplitPackageBody self input array = some array := by
  have h10 : ¬ input.length < 10 := by omega
  simp [SplitPackageBody, h10, IsNormalPackage_of_le input (by omega),
    IsLongPackage_of_le input (by omega), hn, hl, goAnd, goNot]

theorem SplitPackageBody_frame (self : List Byte → List (List Byte) → Option (List (List Byte)))
    (input : List Byte) (array : List (List Byte)) (h : 10 ≤ input.length)
    (hm : input.take 2 = [0x78, 0x78] ∨ input.take 2 = [0x79, 0x79]) :
    SplitPackageBody self input array =
      if (input.length : Int) = headerLen input then some (array ++ [input])
      else if (input.length : Int) > headerLen input then
        match ValidatePackage (input.take (headerLen input).toNat) with
        | none => none
        | some valid =>
          self (input.drop (headerLen input).toNat)
            (if valid then array ++ [input.take (headerLen input).toNat] else array)
      else some array := by
  have h10 : ¬ input.length < 10 := by omega
  have hge := headerLen_ge input
  have hg : goAnd (goNot (IsNormalPackage input)) (goNot (IsLongPackage input)) = some false := by
    rw [IsNormalPackage_of_le input (by omega), IsLongPackage_of_le input (by omega)]
    rcases hm with hm | hm
    · simp [hm, goAnd, goNot]
    · simp [hm, goAnd, goNot]
  simp only [SplitPackageBody, if_neg h10, hg, frameLen_eq input (by omega)]
  by_cases h1 : (input.length : Int) = headerLen input
  · simp only [if_pos h1]
  · simp only [if_neg h1]
    by_cases h2 : (input.length : Int) > headerLen input
    · simp only [if_pos h2]
      rw [slice_upto input _ (by omega) (by omega), slice_from input _ (by omega) (by omega)]
    · simp only [if_neg h2]

/-- Two candidates for the recursive call that agree on every shorter buffer
give the same body. -/
theorem SplitPackageBody_congr
    (self1 self2 : List Byte → List (List Byte) → Option (List (List Byte)))
    (input : List Byte) (array : List (List Byte))
    (h : ∀ rest arr, rest.length < input.length → self1 rest arr = self2 rest arr) :
    SplitPackageBody self1 input array = SplitPackageBody self2 input array := by
  by_cases h10 : input.length < 10
  · rw [SplitPackageBody_short _ _ _ h10, SplitPackageBody_short _ _ _ h10]
  · by_cases hm : input.take 2 = [0x78, 0x78] ∨ input.take 2 = [0x79, 0x79]
    · rw [SplitPackageBody_frame _ _ _ (by omega) hm, SplitPackageBody_frame _ _ _ (by omega) hm]
      have hge := headerLen_ge input
      have hlen : (input.drop (headerLen input).toNat).length < input.length := by
        simp
        omega
      split
      · rfl
      · split
        · cases ValidatePackage (input.take (headerLen input).toNat) with
          | none => rfl
          | some v => exact h _ _ hlen
        · rfl
    · have hn : input.take 2 ≠ [0x78, 0x78] := fun e => hm (Or.inl e)
      have hl : input.take 2 ≠ [0x79, 0x79] := fun e => hm (Or.inr e)
      rw [SplitPackageBody_marker _ _ _ (by omega) hn hl,
        SplitPackageBody_marker _ _ _ (by omega) hn hl]

theorem SplitPackageFuel_eq (n : Nat) :
    ∀ (m : Nat) (input : List Byte) (array : List (List Byte)),
      input.length < n → input.length < m →
      SplitPackageFuel n input array = SplitPackageFuel m input array := by
  induction n with
  | zero => intro m input array h; omega
  | succ n ih =>
    intro m input array hn hm
    cases m with
    | zero => omega
    | succ m =>
      show SplitPackageBody (SplitPackageFuel n) input array =
        SplitPackageBody (SplitPackageFuel m) input array
      apply SplitPackageBody_congr
      intro rest arr hr
      exact ih m rest arr (by omega) (by omega)

/-- The recursion equation of `SplitPackage`: the fuel of the definition is never
used up. -/
theorem SplitPackage_unfold (input : List Byte) (array : List (List Byte)) :
    SplitPackage input array = SplitPackageBody SplitPackage input array := by
  show SplitPackageBody (SplitPackageFuel input.length) input array =
    SplitPackageBody SplitPackage input array
  apply SplitPackageBody_congr
  intro rest arr hr
  exact SplitPackageFuel_eq _ _ rest arr hr (by omega)

/-! ## Complete frames -/

theorem goAnd_eq_true (a b : Option Bool) (h : goAnd a b = some true) :
    a = some true ∧ b = some true := by
  cases a with
  | none => simp [goAnd] at h
  | some x => cases x <;> simp_all [goAnd]

theorem CrcChecker_some_length (data : List Byte) (v : Bool) (h : CrcChecker data = some v) :
    6 ≤ data.length := by
  unfold CrcChecker at h
  cases hs : slice data 2 ((data.length : Int) - 4) with
  | none => simp [hs] at h
  | some r =>
    have := slice_eq_some _ _ _ _ hs
    omega

theorem ValidatePackage_true_length (f : List Byte) (h : ValidatePackage f = some true) :
    6 ≤ f.length :=
  CrcChecker_some_length f true (goAnd_eq_true _ _ h).2

theorem marker_of_IsNormalPackage (f : List Byte) (h : IsNormalPackage f = some true) :
    f.take 2 = [0x78, 0x78] := by
  have h2 : 2 ≤ f.length := by
    unfold IsNormalPackage at h
    cases hs : GetStartBytes f with
    | none => simp [hs] at h
    | some sb =>
      have := slice_eq_some _ _ _ _ hs
      omega
  rw [IsNormalPackage_of_le f h2] at h
  simpa using h

theorem marker_of_IsLongPackage (f : List Byte) (h : IsLongPackage f = some true) :
    f.take 2 = [0x79, 0x79] := by
  have h2 : 2 ≤ f.length := by
    unfold IsLongPackage at h
    cases hs : GetStartBytes f with
    | none => simp [hs] at h
    | some sb =>
      have := slice_eq_some _ _ _ _ hs
      omega
  rw [IsLongPackage_of_le f h2] at h
  simpa using h

theorem marker_of_or (f : List Byte)
    (h : IsNormalPackage f = some true ∨ IsLongPackage f = some true) :
    f.take 2 = [0x78, 0x78] ∨ f.take 2 = [0x79, 0x79] :=
  h.imp (marker_of_IsNormalPackage f) (marker_of_IsLongPackage f)

theorem headerLen_append (f rest : List Byte) (h : 4 ≤ f.length) :
    headerLen (f ++ rest) = headerLen f := by
  match f, h with
  | a :: b :: c :: d :: tl, _ => simp [headerLen]

theorem take_two_append (f rest : List Byte) (h : 2 ≤ f.length) :
    (f ++ rest).take 2 = f.take 2 := by
  match f, h with
  | a :: b :: tl, _ => simp

theorem CompleteFrame.facts {f : List Byte} (h : CompleteFrame f) :
    6 ≤ f.length ∧ (f.take 2 = [0x78, 0x78] ∨ f.take 2 = [0x79, 0x79]) ∧
      headerLen f = (f.length : Int) := by
  have h6 := ValidatePackage_true_length f h.1
  refine ⟨h6, marker_of_or f h.2.1, ?_⟩
  have := h.2.2
  rw [frameLen_eq f (by omega)] at this
  simpa using this

/-- One step of the splitter on a complete frame followed by more bytes. -/
theorem SplitPackage_step (f rest : List Byte) (acc : List (List Byte)) (hf : CompleteFrame f)
    (hlen : 10 ≤ f.length + rest.length) :
    SplitPackage (f ++ rest) acc =
      if rest = [] then some (acc ++ [f]) else SplitPackage rest (acc ++ [f]) := by
  obtain ⟨h6, hm, hh⟩ := hf.facts
  have hm2 : (f ++ rest).take 2 = [0x78, 0x78] ∨ (f ++ rest).take 2 = [0x79, 0x79] := by
    rw [take_two_append f rest (by omega)]; exact hm
  have hh2 : headerLen (f ++ rest) = (f.length : Int) := by
    rw [headerLen_append f rest (by omega)]; exact hh
  rw [SplitPackage_unfold, SplitPackageBody_frame _ _ _ (by simp; omega) hm2, hh2]
  by_cases hr : rest = []
  · subst hr
    simp
  · have hpos : 0 < rest.length := List.length_pos.mpr hr
    have h1 : ¬ (((f ++ rest).length : Int) = (f.length : Int)) := by
      simp only [List.length_append]; omega
    have h2 : (((f ++ rest).length : Int) > (f.length : Int)) := by
      simp only [List.length_append]; omega
    simp only [if_neg h1, if_pos h2, if_neg hr, Int.toNat_ofNat, List.take_left', List.drop_left',
      hf.1, if_true]

theorem length_le_flatten_of_mem (l : List Byte) (fs : List (List Byte)) (h : l ∈ fs) :
    l.length ≤ fs.flatten.length := by
  induction fs with
  | nil => simp at h
  | cons g gs ih =>
    simp only [List.flatten_cons, List.length_append]
    rcases List.mem_cons.mp h with rfl | h
    · omega
    · have := ih h
      omega

/-- A non-empty proper prefix of a complete frame makes the splitter emit
nothing. -/
theorem SplitPackage_incomplete (t g : List Byte) (acc : List (List Byte)) (hg : CompleteFrame g)
    (hp : t <+: g) (hlt : t.length < g.length) : SplitPackage t acc = some acc := by
  rw [SplitPackage_unfold]
  by_cases h10 : t.length < 10
  · exact SplitPackageBody_short _ _ _ h10
  · obtain ⟨h6, hm, hh⟩ := hg.facts
    obtain ⟨r, rfl⟩ := hp
    have hm2 : t.take 2 = [0x78, 0x78] ∨ t.take 2 = [0x79, 0x79] := by
      rw [take_two_append t r (by omega)] at hm; exact hm
    have hh2 : headerLen t = ((t ++ r).length : Int) := by
      rw [headerLen_append t r (by omega)] at hh; exact hh
    rw [SplitPackageBody_frame _ _ _ (by omega) hm2, hh2]
    have h1 : ¬ ((t.length : Int) = ((t ++ r).length : Int)) := by omega
    have h2 : ¬ ((t.length : Int) > ((t ++ r).length : Int)) := by omega
    simp only [if_neg h1, if_neg h2]

/-- Complete frames followed by bytes on which the splitter emits nothing. -/
theorem SplitPackage_frames_then (frames : List (List Byte)) (t : List Byte)
    (hf : ∀ f ∈ frames, CompleteFrame f)
    (ht : ∀ acc, SplitPackage t acc = some acc)
    (hlen : ∀ l, frames.getLast? = some l → 10 ≤ l.length + t.length) :
    ∀ acc, SplitPackage (frames.flatten ++ t) acc = some (acc ++ frames) := by
  induction frames with
  | nil => intro acc; simpa using ht acc
  | cons f fs ih =>
    intro acc
    have hcf : CompleteFrame f := hf f (List.mem_cons_self _ _)
    have hfs : ∀ g ∈ fs, CompleteFrame g := fun g hg => hf g (List.mem_cons_of_mem _ hg)
    rw [List.flatten_cons, List.append_assoc]
    cases fs with
    | nil =>
      have hten : 10 ≤ f.length + (([] : List (List Byte)).flatten ++ t).length := by
        simpa using hlen f (by simp)
      rw [SplitPackage_step f _ acc hcf hten]
      by_cases hr : ([] : List (List Byte)).flatten ++ t = []
      · rw [if_pos hr]
      · rw [if_neg hr]
        simpa using ht (acc ++ [f])
    | cons g gs =>
      have hne : g :: gs ≠ [] := by simp
      have hlen' : ∀ l, (g :: gs).getLast? = some l → 10 ≤ l.length + t.length := by
        intro l hl
        apply hlen
        rw [List.getLast?_cons_cons]
        exact hl
      have h1 := hlen' ((g :: gs).getLast hne) (List.getLast?_eq_getLast _ hne)
      have h2 := length_le_flatten_of_mem _ (g :: gs) (List.getLast_mem hne)
      have hten : 10 ≤ f.length + ((g :: gs).flatten ++ t).length := by
        simp only [List.length_append] at h2 ⊢
        omega
      have hr : (g :: gs).flatten ++ t ≠ [] := by
        intro h0
        have := congrArg List.length h0
        simp only [List.length_append, List.length_nil] at this
        omega
      rw [SplitPackage_step f _ acc hcf hten, if_neg hr, ih hfs hlen']
      simp

/-- C3 (as amended). When every frame of a list is a complete valid frame and
the last one is at least 10 bytes long, `SplitPackage` applied to their
concatenation and the empty accumulator returns exactly that list, in order. -/
theorem SplitPackage_concat_frames (frames : List (List Byte))
    (hf : ∀ f ∈ frames, CompleteFrame f)
    (hlast : ∀ l, frames.getLast? = some l → 10 ≤ l.length) :
    SplitPackage frames.flatten [] = some frames := by
  have h := SplitPackage_frames_then frames [] hf
    (fun acc => by rw [SplitPackage_unfold]; exact SplitPackageBody_short _ _ _ (by simp))
    (fun l hl => by simpa using hlast l hl) []
  simpa using h

theorem SplitPackage_concat_frames_witness :
    (∀ f ∈ [loginFrame, shortFrame, longFrame], CompleteFrame f) ∧
    (∀ l, [loginFrame, shortFrame, longFrame].getLast? = some l → 10 ≤ l.length) ∧
    SplitPackage [loginFrame, shortFrame, longFrame].flatten [] =
      some [loginFrame, shortFrame, longFrame] :=
  ⟨by decide, by decide,
    SplitPackage_concat_frames [loginFrame, shortFrame, longFrame] (by decide) (by decide)⟩

/-- C3 fails as stated: the single complete valid frame `shortFrame` (k = 1) is
8 bytes long, and `SplitPackage` returns the empty list on it. -/
theorem SplitPackage_concat_frames_counterexample :
    CompleteFrame shortFrame ∧ SplitPackage [shortFrame].flatten [] = some [] := by
  decide

/-- C4. On a buffer of at least 10 bytes behind a Normal or Long marker that is
strictly longer than the frame length `L` of its header, the slices `input[:L]`
and `input[L:]` exist, `ValidatePackage(input[:L])` returns a boolean, and
`SplitPackage(input, acc)` is `SplitPackage(input[L:], acc')` with
`acc' = acc ++ [input[:L]]` when that boolean is true and `acc' = acc`
otherwise. -/
theorem SplitPackage_longer (input : List Byte) (acc : List (List Byte)) (L : Int)
    (h10 : 10 ≤ input.length)
    (hm : IsNormalPackage input = some true ∨ IsLongPackage input = some true)
    (hL : frameLen input = some L) (hlt : L < (input.length : Int)) :
    ∃ first rest valid,
      slice input 0 L = some first ∧ slice input L input.length = some rest ∧
      ValidatePackage first = some valid ∧
      SplitPackage input acc = SplitPackage rest (if valid then acc ++ [first] else acc) := by
  have hL' : L = headerLen input := by
    rw [frameLen_eq input (by omega)] at hL
    exact (Option.some.inj hL).symm
  subst hL'
  have hge := headerLen_ge input
  obtain ⟨valid, hv⟩ := ValidatePackage_total (input.take (headerLen input).toNat)
    (by simp; omega)
  refine ⟨input.take (headerLen input).toNat, input.drop (headerLen input).toNat, valid,
    slice_upto input _ (by omega) (by omega), slice_from input _ (by omega) (by omega), hv, ?_⟩
  have h1 : ¬ ((input.length : Int) = headerLen input) := by omega
  have h2 : (input.length : Int) > headerLen input := by omega
  rw [SplitPackage_unfold input, SplitPackageBody_frame _ _ _ h10 (marker_of_or input hm),
    if_neg h1, if_pos h2, hv]

theorem SplitPackage_longer_witness :
    10 ≤ (loginFrame ++ shortFrame).length ∧
    (IsNormalPackage (loginFrame ++ shortFrame) = some true ∨
      IsLongPackage (loginFrame ++ shortFrame) = some true) ∧
    frameLen (loginFrame ++ shortFrame) = some 10 ∧
    (10 : Int) < ((loginFrame ++ shortFrame).length : Int) ∧
    ∃ first rest valid,
      slice (loginFrame ++ shortFrame) 0 10 = some first ∧
      slice (loginFrame ++ shortFrame) 10 (loginFrame ++ shortFrame).length = some rest ∧
      ValidatePackage first = some valid ∧
      SplitPackage (loginFrame ++ shortFrame) [] =
        SplitPackage rest (if valid then [] ++ [first] else []) :=
  ⟨by decide, by decide, by decide, by decide,
    SplitPackage_longer (loginFrame ++ shortFrame) [] 10 (by decide) (by decide) (by decide)
      (by decide)⟩

/-- C5. On a buffer of at least 10 bytes the frame length that `SplitPackage`
computes is the byte at offset 2 plus 5 behind a Normal marker and the
big-endian value of bytes 2 and 3 plus 1 plus 5 behind a Long marker; and when
the buffer is exactly that long, `SplitPackage(input, [])` is `[input]`. -/
theorem SplitPackage_exact_length (input : List Byte) (h10 : 10 ≤ input.length) :
    (IsNormalPackage input = some true →
      ∃ b2, input[2]? = some b2 ∧ frameLen input = some ((b2.val : Int) + 5)) ∧
    (IsLongPackage input = some true →
      ∃ b2 b3, input[2]? = some b2 ∧ input[3]? = some b3 ∧
        frameLen input = some (256 * (b2.val : Int) + (b3.val : Int) + 1 + 5)) ∧
    ((IsNormalPackage input = some true ∨ IsLongPackage input = some true) →
      frameLen input = some (input.length : Int) → SplitPackage input [] = some [input]) := by
  have hfl := frameLen_eq input (by omega)
  match input, h10 with
  | a :: b :: c :: d :: rest, h10 =>
    refine ⟨?_, ?_, ?_⟩
    · intro hn
      have hm := marker_of_IsNormalPackage _ hn
      refine ⟨c, by simp, ?_⟩
      rw [hfl]
      simp only [List.take_succ_cons, List.take_zero, List.cons.injEq, and_true] at hm
      simp [headerLen, hm.1, hm.2]
    · intro hl
      have hm := marker_of_IsLongPackage _ hl
      refine ⟨c, d, by simp, by simp, ?_⟩
      rw [hfl]
      simp only [List.take_succ_cons, List.take_zero, List.cons.injEq, and_true] at hm
      simp [headerLen, hm.1, hm.2]
    · intro hm hlen
      rw [hfl] at hlen
      have hh := Option.some.inj hlen
      rw [SplitPackage_unfold, SplitPackageBody_frame _ _ _ h10 (marker_of_or _ hm),
        if_pos hh.symm]
      simp

theorem SplitPackage_exact_length_witness :
    10 ≤ loginFrame.length ∧
    ((IsNormalPackage loginFrame = some true →
      ∃ b2, loginFrame[2]? = some b2 ∧ frameLen loginFrame = some ((b2.val : Int) + 5)) ∧
    (IsLongPackage loginFrame = some true →
      ∃ b2 b3, loginFrame[2]? = some b2 ∧ loginFrame[3]? = some b3 ∧
        frameLen loginFrame = some (256 * (b2.val : Int) + (b3.val : Int) + 1 + 5)) ∧
    ((IsNormalPackage loginFrame = some true ∨ IsLongPackage loginFrame = some true) →
      frameLen loginFrame = some (loginFrame.length : Int) →
      SplitPackage loginFrame [] = some [loginFrame])) :=
  ⟨by decide, SplitPackage_exact_length loginFrame (by decide)⟩

/-- C6. `SplitPackage` returns its accumulator unchanged on a buffer shorter than
10 bytes, on a buffer that does not start with a recognised start marker (none
of the three that `ValidateStartBytes` knows, or more generally neither the
Normal nor the Long one), and on a buffer shorter than the frame length of its
header. -/
theorem SplitPackage_emits_nothing (input : List Byte) (acc : List (List Byte))
    (h : input.length < 10 ∨ ValidateStartBytes input ≠ some true ∨
      (IsNormalPackage input ≠ some true ∧ IsLongPackage input ≠ some true) ∨
      (∃ L, frameLen input = some L ∧ (input.length : Int) < L)) :
    SplitPackage input acc = some acc := by
  rw [SplitPackage_unfold]
  by_cases h10 : input.length < 10
  · exact SplitPackageBody_short _ _ _ h10
  · have hN := IsNormalPackage_of_le input (by omega)
    have hLg := IsLongPackage_of_le input (by omega)
    have hS := ValidateStartBytes_of_le input (by omega)
    by_cases hm : input.take 2 = [0x78, 0x78] ∨ input.take 2 = [0x79, 0x79]
    · rcases h with h | h | h | ⟨L, hL, hlt⟩
      · exact absurd h h10
      · exfalso
        apply h
        rw [hS]
        rcases hm with hm | hm <;> simp [hm]
      · exfalso
        rcases hm with hm | hm
        · exact h.1 (by rw [hN]; simp [hm])
        · exact h.2 (by rw [hLg]; simp [hm])
      · rw [frameLen_eq input (by omega)] at hL
        have hL' := Option.some.inj hL
        have h1 : ¬ ((input.length : Int) = headerLen input) := by omega
        have h2 : ¬ ((input.length : Int) > headerLen input) := by omega
        rw [SplitPackageBody_frame _ _ _ (by omega) hm, if_neg h1, if_neg h2]
    · exact SplitPackageBody_marker _ _ _ (by omega) (fun e => hm (Or.inl e))
        (fun e => hm (Or.inr e))

theorem SplitPackage_emits_nothing_witness :
    ((loginFrame.take 9).length < 10 ∨ ValidateStartBytes (loginFrame.take 9) ≠ some true ∨
      (IsNormalPackage (loginFrame.take 9) ≠ some true ∧
        IsLongPackage (loginFrame.take 9) ≠ some true) ∨
      (∃ L, frameLen (loginFrame.take 9) = some L ∧ ((loginFrame.take 9).length : Int) < L)) ∧
    SplitPackage (loginFrame.take 9) [shortFrame] = some [shortFrame] :=
  ⟨Or.inl (by decide),
    SplitPackage_emits_nothing (loginFrame.take 9) [shortFrame] (Or.inl (by decide))⟩

/-- C7 (as amended). When complete valid frames are followed by a non-empty
proper prefix `t` of a complete valid frame, and the last complete frame
together with `t` is at least 10 bytes long, `SplitPackage` returns exactly the
complete frames. -/
theorem SplitPackage_incomplete_tail (frames : List (List Byte)) (t g : List Byte)
    (hf : ∀ f ∈ frames, CompleteFrame f) (hg : CompleteFrame g)
    (hp : t <+: g) (_hne : t ≠ []) (hlt : t.length < g.length)
    (hlen : ∀ l, frames.getLast? = some l → 10 ≤ l.length + t.length) :
    SplitPackage (frames.flatten ++ t) [] = some frames := by
  have h := SplitPackage_frames_then frames t hf
    (fun acc => SplitPackage_incomplete t g acc hg hp hlt) hlen []
  simpa using h

theorem SplitPackage_incomplete_tail_witness :
    (∀ f ∈ [shortFrame, longFrame], CompleteFrame f) ∧ CompleteFrame loginFrame ∧
    loginFrame.take 7 <+: loginFrame ∧ loginFrame.take 7 ≠ [] ∧
    (loginFrame.take 7).length < loginFrame.length ∧
    (∀ l, [shortFrame, longFrame].getLast? = some l → 10 ≤ l.length + (loginFrame.take 7).length) ∧
    SplitPackage ([shortFrame, longFrame].flatten ++ loginFrame.take 7) [] =
      some [shortFrame, longFrame] :=
  ⟨by decide, by decide, by decide, by decide, by decide, by decide,
    SplitPackage_incomplete_tail [shortFrame, longFrame] (loginFrame.take 7) loginFrame
      (by decide) (by decide) (by decide) (by decide) (by decide) (by decide)⟩

/-- C7 fails as stated: behind the complete valid frame `shortFrame` (8 bytes)
the one-byte prefix `78` of a frame leaves a buffer of 9 bytes, and
`SplitPackage` returns the empty list instead of `[shortFrame]`. -/
theorem SplitPackage_incomplete_tail_counterexample :
    CompleteFrame shortFrame ∧ [(0x78 : Byte)] <+: shortFrame ∧
    [(0x78 : Byte)] ≠ [] ∧ [(0x78 : Byte)].length < shortFrame.length ∧
    SplitPackage ([shortFrame].flatten ++ [0x78]) [] = some [] := by
  decide

theorem setIndex_front (p rest : List Byte) (j : Nat) (v : Byte) (h : j < p.length)
    (i : Int) (hi : i = (j : Int)) :
    setIndex (p ++ rest) i v = some (p.set j v ++ rest) := by
  subst hi
  unfold setIndex
  rw [if_pos (by simp; omega)]
  simp [List.set_append_left _ _ h]

theorem setIndex_back (p mid suf : List Byte) (k : Nat) (v : Byte) (h : k < suf.length)
    (i : Int) (hi : i = ((p.length + mid.length + k : Nat) : Int)) :
    setIndex (p ++ (mid ++ suf)) i v = some (p ++ (mid ++ suf.set k v)) := by
  subst hi
  unfold setIndex
  rw [if_pos (by simp; omega)]
  simp only [Int.toNat_ofNat]
  rw [List.set_append_right _ _ (by omega), List.set_append_right _ _ (by omega)]
  congr 4
  omega

theorem replicate_shape (n : Nat) :
    List.replicate (n + 15) (0 : Byte) =
      [0, 0, 0, 0, 0, 0, 0, 0, 0] ++ (List.replicate n 0 ++ [0, 0, 0, 0, 0, 0]) := by
  rw [show n + 15 = 9 + (n + 6) by omega, List.replicate_add, List.replicate_add]
  rfl

theorem slice_mid (a b c : List Byte) (i j : Int) (hi : i = (a.length : Int))
    (hj : j = (a.length : Int) + (b.length : Int)) :
    slice (a ++ (b ++ c)) i j = some b := by
  subst hi hj
  have h := slice_of_le (a ++ (b ++ c)) a.length (a.length + b.length) (by omega)
    (by simp)
  rw [Nat.cast_add] at h
  rw [h]
  simp

theorem copySlice_mid (p mid suf msg : List Byte) (hm : mid.length = msg.length)
    (i j : Int) (hi : i = (p.length : Int)) (hj : j = (p.length : Int) + (msg.length : Int)) :
    copySlice (p ++ (mid ++ suf)) i j msg = some (p ++ (msg ++ suf)) := by
  unfold copySlice
  rw [slice_mid p mid suf i j hi (by rw [hj, hm])]
  subst hi
  simp only [Option.map_some', Int.toNat_ofNat, hm, Nat.min_self, List.take_left',
    List.take_length, List.append_assoc]
  rw [List.drop_append, List.drop_left' hm]

theorem CreatePackageForDevice_eq (message : List Byte) (s : Nat) :
    CreatePackageForDevice message s =
      some (createdFrame message (GeneratePackageSN s).1, (GeneratePackageSN s).2) := by
  unfold CreatePackageForDevice
  rcases hsn : GeneratePackageSN s with ⟨⟨sn1, sn2⟩, s'⟩
  simp only [replicate_shape, Option.bind_eq_bind, Option.pure_def]
  rw [setIndex_front _ _ 0 _ (by simp) 0 rfl]
  simp only [Option.some_bind]
  rw [setIndex_front _ _ 1 _ (by simp) 1 rfl]
  simp only [Option.some_bind]
  rw [setIndex_front _ _ 2 _ (by simp) 2 rfl]
  simp only [Option.some_bind]
  rw [setIndex_front _ _ 3 _ (by simp) 3 rfl]
  simp only [Option.some_bind]
  rw [setIndex_back _ _ _ 0 _ (by simp) _ (by simp; omega)]
  simp only [Option.some_bind]
  rw [setIndex_back _ _ _ 1 _ (by simp) _ (by simp; omega)]
  simp only [Option.some_bind]
  rw [setIndex_front _ _ 4 _ (by simp) 4 rfl]
  simp only [Option.some_bind]
  rw [copySlice_mid _ _ _ message (by simp) _ _ (by simp) (by simp)]
  simp only [Option.some_bind, List.set_cons_zero, List.set_cons_succ]
  have shape : [ParserStartBit, ParserStartBit, toByte (message.length + 10),
      ParserOnlineCommandProtocol, toByte (message.length + 4), 0, 0, 0, 0] ++
      (message ++ [sn1, sn2, 0, 0, 0, 0]) =
      [ParserStartBit, ParserStartBit] ++
        (([toByte (message.length + 10), ParserOnlineCommandProtocol,
          toByte (message.length + 4), 0, 0, 0, 0] ++ message ++ [sn1, sn2]) ++ [0, 0, 0, 0]) := by
    simp
  rw [shape, slice_mid _ _ _ _ _ (by simp) (by simp; omega)]
  simp only [Option.some_bind]
  rw [setIndex_back _ _ _ 0 _ (by simp) _ (by simp; omega)]
  simp only [Option.some_bind]
  rw [setIndex_back _ _ _ 1 _ (by simp) _ (by simp; omega)]
  simp only [Option.some_bind]
  rw [setIndex_back _ _ _ 2 _ (by simp) _ (by simp; omega)]
  simp only [Option.some_bind]
  rw [setIndex_back _ _ _ 3 _ (by simp) _ (by simp; omega)]
  simp [createdFrame]

set_option maxRecDepth 8000 in
/-- The check value of CRC-16/X25: the nine ASCII digits `123456789` give
0x906E. -/
theorem CalculateCRC_X25_check_value :
    CalculateCRC_X25 [0x31, 0x32, 0x33, 0x34, 0x35, 0x36, 0x37, 0x38, 0x39] = 0x906E := by
  decide

theorem CrcChecker_framed (a b e1 e2 : Byte) (body : List Byte) :
    CrcChecker ([a, b] ++ body ++ [(GenerateCrc body).1, (GenerateCrc body).2, e1, e2]) =
      some true := by
  have s1 : [a, b] ++ body ++ [(GenerateCrc body).1, (GenerateCrc body).2, e1, e2] =
      [a, b] ++ (body ++ [(GenerateCrc body).1, (GenerateCrc body).2, e1, e2]) := by simp
  have s2 : [a, b] ++ (body ++ [(GenerateCrc body).1, (GenerateCrc body).2, e1, e2]) =
      ([a, b] ++ body) ++ ([(GenerateCrc body).1, (GenerateCrc body).2] ++ [e1, e2]) := by simp
  unfold CrcChecker
  rw [s1, slice_mid [a, b] body _ _ _ (by simp) (by simp; omega)]
  rw [s2, slice_mid ([a, b] ++ body) [(GenerateCrc body).1, (GenerateCrc body).2] [e1, e2] _ _
    (by simp; omega) (by simp; omega)]
  simp

theorem createdFrame_length (message : List Byte) (sn : Byte × Byte) :
    (createdFrame message sn).length = message.length + 15 := by
  simp [createdFrame]

/-- C1 (as amended). For every payload and every counter value the frame of
`CreatePackageForDevice` has a recognised start marker, the end marker and a
matching checksum, and its opcode 0x80 is not in `validPackage()`:
`ValidatePackage` returns false on it. -/
theorem CreatePackageForDevice_rejected (message : List Byte) (serialNumber : Nat) :
    ∃ frame sn, CreatePackageForDevice message serialNumber = some (frame, sn) ∧
      ValidateStartBytes frame = some true ∧ ValidateEndBytes frame = some true ∧
      CrcChecker frame = some true ∧
      GetPackageType frame = some ParserOnlineCommandProtocol ∧
      ParserOnlineCommandProtocol ∉ validPackage ∧
      ValidatePackage frame = some false := by
  refine ⟨_, _, CreatePackageForDevice_eq message serialNumber, ?_⟩
  generalize (GeneratePackageSN serialNumber).1 = sn
  have hlen := createdFrame_length message sn
  have hs : ValidateStartBytes (createdFrame message sn) = some true := by
    rw [ValidateStartBytes_of_le _ (by omega)]
    simp [createdFrame, ParserStartBit]
  have he : ValidateEndBytes (createdFrame message sn) = some true := by
    rw [ValidateEndBytes_of_le _ (by omega), hlen]
    simp [createdFrame, ParserEndBitFirst, ParserEndBitEnd]
  have hc : CrcChecker (createdFrame message sn) = some true := by
    unfold createdFrame
    exact CrcChecker_framed _ _ _ _ _
  have hp : GetPackageType (createdFrame message sn) = some ParserOnlineCommandProtocol := by
    rw [GetPackageType_of_le _ (by omega)]
    simp [createdFrame, ParserStartBit]
  have hn : ParserOnlineCommandProtocol ∉ validPackage := by decide
  refine ⟨hs, he, hc, hp, hn, ?_⟩
  rw [ValidatePackage, hs, he, hp, hc]
  simp [goAnd, hn]

/-- C1 fails as stated: for the one-byte payload `41` and the counter 0 the
frame built is rejected by `ValidatePackage`. -/
theorem CreatePackageForDevice_rejected_counterexample :
    (CreatePackageForDevice [0x41] 0).bind (fun r => ValidatePackage r.1) = some false := by
  decide

/-! ## The sequence counter -/

theorem GeneratePackageSN_eq (s : Nat) :
    GeneratePackageSN s =
      ((toByte (((s + 1) % 65536) >>> 8), toByte ((s + 1) % 65536)), (s + 1) % 65536) := by
  have h : ¬ ((s + 1) % 65536 > 65535) := by omega
  simp only [GeneratePackageSN, if_neg h]

theorem pairValue_GeneratePackageSN (s : Nat) :
    pairValue (GeneratePackageSN s).1 = (s + 1) % 65536 := by
  rw [GeneratePackageSN_eq]
  simp only [pairValue, toByte, Nat.shiftRight_eq_div_pow]
  omega

/-- C8, the code at the failing input: called with the counter at 65535,
`GeneratePackageSN` returns the pair (0x00, 0x00) and leaves the counter at 0,
not (0x00, 0x01) and 1. -/
theorem GeneratePackageSN_wraps_to_zero :
    GeneratePackageSN 65535 = ((0x00, 0x00), 0) := by
  decide

theorem sequenceNumbers_values (n : Nat) :
    ∀ s, s + n ≤ 65535 → (sequenceNumbers n s).map pairValue = List.range' (s + 1) n := by
  induction n with
  | zero => intro s _; rfl
  | succ n ih =>
    intro s h
    have h1 : (s + 1) % 65536 = s + 1 := Nat.mod_eq_of_lt (by omega)
    have h2 : (GeneratePackageSN s).2 = s + 1 := by rw [GeneratePackageSN_eq]; exact h1
    simp only [sequenceNumbers, List.map_cons, pairValue_GeneratePackageSN, h1, h2,
      List.range'_succ]
    rw [ih (s + 1) (by omega)]

theorem sequenceField_createdFrame (message : List Byte) (sn : Byte × Byte) :
    sequenceField (createdFrame message sn) = [sn.1, sn.2] := by
  have e : createdFrame message sn =
      ([ParserStartBit, ParserStartBit, toByte (message.length + 10), ParserOnlineCommandProtocol,
        toByte (message.length + 4), 0, 0, 0, 0] ++ message) ++
      [sn.1, sn.2, (GenerateCrc ([toByte (message.length + 10), ParserOnlineCommandProtocol,
        toByte (message.length + 4), 0, 0, 0, 0] ++ message ++ [sn.1, sn.2])).1,
       (GenerateCrc ([toByte (message.length + 10), ParserOnlineCommandProtocol,
        toByte (message.length + 4), 0, 0, 0, 0] ++ message ++ [sn.1, sn.2])).2,
       ParserEndBitFirst, ParserEndBitEnd] := by
    simp [createdFrame]
  rw [sequenceField, createdFrame_length, e, List.drop_left' (by simp)]
  rfl

/-- C9. Sequential calls of `GeneratePackageSN` that stay below the wrap of the
counter (`serialNumber + n ≤ 65535`, so any `n ≤ 65535` calls from the initial
state 0) return pairwise distinct pairs, encoding pairwise distinct 16-bit
values; and from every counter value two frames built by consecutive calls of
`CreatePackageForDevice` carry different sequence fields. -/
theorem GeneratePackageSN_distinct (serialNumber n : Nat) (m1 m2 : List Byte) :
    (serialNumber + n ≤ 65535 →
      (sequenceNumbers n serialNumber).Nodup ∧
      ((sequenceNumbers n serialNumber).map pairValue).Nodup) ∧
    (∃ f1 s1 f2 s2, CreatePackageForDevice m1 serialNumber = some (f1, s1) ∧
      CreatePackageForDevice m2 s1 = some (f2, s2) ∧ sequenceField f1 ≠ sequenceField f2) := by
  constructor
  · intro h
    have hv : ((sequenceNumbers n serialNumber).map pairValue).Nodup := by
      rw [sequenceNumbers_values n serialNumber h]
      exact List.nodup_range' _ _
    exact ⟨List.Nodup.of_map _ hv, hv⟩
  · refine ⟨_, _, _, _, CreatePackageForDevice_eq m1 serialNumber,
      CreatePackageForDevice_eq m2 _, ?_⟩
    rw [sequenceField_createdFrame, sequenceField_createdFrame]
    intro heq
    have hp : (GeneratePackageSN serialNumber).1 =
        (GeneratePackageSN (GeneratePackageSN serialNumber).2).1 := by
      simp only [List.cons.injEq, and_true] at heq
      exact Prod.ext heq.1 heq.2
    have hval := congrArg pairValue hp
    rw [pairValue_GeneratePackageSN, pairValue_GeneratePackageSN, GeneratePackageSN_eq] at hval
    simp only at hval
    omega

theorem GeneratePackageSN_distinct_witness :
    ((sequenceNumbers 4 0).Nodup ∧ ((sequenceNumbers 4 0).map pairValue).Nodup) ∧
    (∃ f1 s1 f2 s2, CreatePackageForDevice [0x41] 0 = some (f1, s1) ∧
      CreatePackageForDevice [0x42, 0x43] s1 = some (f2, s2) ∧
      sequenceField f1 ≠ sequenceField f2) :=
  ⟨(GeneratePackageSN_distinct 0 4 [0x41] [0x42, 0x43]).1 (by decide),
    (GeneratePackageSN_distinct 0 4 [0x41] [0x42, 0x43]).2⟩

theorem createdFrame_byte2 (message : List Byte) (sn : Byte × Byte) :
    (createdFrame message sn)[2]? = some (toByte (message.length + 10)) := by
  simp [createdFrame]

/-- C10 (as amended). For every payload of `n` bytes `CreatePackageForDevice`
returns a frame of `n + 15` bytes: the Normal marker, byte 2 equal to
`(n + 10) mod 256` (so `n + 10` when `n ≤ 245`), opcode 0x80, byte 4 equal to
`(n + 4) mod 256` (so `n + 4` when `n ≤ 251`), the payload verbatim at offsets
`9 .. 9+n-1`, the pair of `GeneratePackageSN` for this call in the two bytes
before the checksum field, and the end marker 0x0D 0x0A. -/
theorem CreatePackageForDevice_layout (message : List Byte) (serialNumber : Nat) :
    ∃ frame sn, CreatePackageForDevice message serialNumber = some (frame, sn) ∧
      sn = (GeneratePackageSN serialNumber).2 ∧
      frame.length = message.length + 15 ∧
      frame.take 2 = [0x78, 0x78] ∧
      (frame[2]?).map Fin.val = some ((message.length + 10) % 256) ∧
      (message.length ≤ 245 → (frame[2]?).map Fin.val = some (message.length + 10)) ∧
      frame[3]? = some 0x80 ∧
      (frame[4]?).map Fin.val = some ((message.length + 4) % 256) ∧
      (message.length ≤ 251 → (frame[4]?).map Fin.val = some (message.length + 4)) ∧
      (frame.drop 9).take message.length = message ∧
      sequenceField frame =
        [(GeneratePackageSN serialNumber).1.1, (GeneratePackageSN serialNumber).1.2] ∧
      frame.drop (frame.length - 2) = [0x0d, 0x0a] := by
  refine ⟨_, _, CreatePackageForDevice_eq message serialNumber, rfl,
    createdFrame_length _ _, ?_, ?_, ?_, ?_, ?_, ?_, ?_, sequenceField_createdFrame _ _, ?_⟩
  · simp [createdFrame, ParserStartBit]
  · simp [createdFrame, toByte]
  · intro h
    simp [createdFrame, toByte]
    omega
  · simp [createdFrame, ParserOnlineCommandProtocol]
  · simp [createdFrame, toByte]
  · intro h
    simp [createdFrame, toByte]
    omega
  · simp [createdFrame]
  · rw [createdFrame_length]
    simp [createdFrame, ParserEndBitFirst, ParserEndBitEnd]

theorem CreatePackageForDevice_layout_witness :
    ∃ frame sn, CreatePackageForDevice [0x41, 0x42] 7 = some (frame, sn) ∧
      sn = (GeneratePackageSN 7).2 ∧
      frame.length = [(0x41 : Byte), 0x42].length + 15 ∧
      frame.take 2 = [0x78, 0x78] ∧
      (frame[2]?).map Fin.val = some (([(0x41 : Byte), 0x42].length + 10) % 256) ∧
      ([(0x41 : Byte), 0x42].length ≤ 245 →
        (frame[2]?).map Fin.val = some ([(0x41 : Byte), 0x42].length + 10)) ∧
      frame[3]? = some 0x80 ∧
      (frame[4]?).map Fin.val = some (([(0x41 : Byte), 0x42].length + 4) % 256) ∧
      ([(0x41 : Byte), 0x42].length ≤ 251 →
        (frame[4]?).map Fin.val = some ([(0x41 : Byte), 0x42].length + 4)) ∧
      (frame.drop 9).take [(0x41 : Byte), 0x42].length = [0x41, 0x42] ∧
      sequenceField frame = [(GeneratePackageSN 7).1.1, (GeneratePackageSN 7).1.2] ∧
      frame.drop (frame.length - 2) = [0x0d, 0x0a] :=
  CreatePackageForDevice_layout [0x41, 0x42] 7

/-- C10 fails as stated: for a payload of 246 bytes the declared length field
(byte 2) of the frame is 0, not `n + 10 = 256`. -/
theorem CreatePackageForDevice_layout_counterexample :
    (CreatePackageForDevice (List.replicate 246 0) 0).map (fun r => (r.1[2]?).map Fin.val) =
      some (some 0) ∧
    (List.replicate 246 (0 : Byte)).length + 10 = 256 := by
  rw [CreatePackageForDevice_eq, Option.map_some', createdFrame_byte2, List.length_replicate]
  exact ⟨rfl, rfl⟩

/-! ## The checksum register -/

theorem crcShift_lt (c : Nat) (h : c < 65536) : crcShift c < 65536 := by
  unfold crcShift
  have h1 : c >>> 1 < 2 ^ 16 := by
    rw [Nat.shiftRight_eq_div_pow]
    omega
  split
  · exact Nat.xor_lt_two_pow h1 (by decide)
  · omega

theorem crcShift_odd_ge (c : Nat) (h : c < 65536) : 32768 ≤ (c >>> 1) ^^^ 0x8408 := by
  have hb : ((c >>> 1) ^^^ 0x8408).testBit 15 = true := by
    have h1 : (c >>> 1).testBit 15 = false := by
      apply Nat.testBit_lt_two_pow
      rw [Nat.shiftRight_eq_div_pow]
      omega
    have h2 : (0x8408 : Nat).testBit 15 = true := by decide
    simp [Nat.testBit_xor, h1, h2]
  by_contra hlt
  have : ((c >>> 1) ^^^ 0x8408).testBit 15 = false :=
    Nat.testBit_lt_two_pow (by omega)
  rw [hb] at this
  exact absurd this (by decide)

theorem crcShift_injective (c d : Nat) (hc : c < 65536) (hd : d < 65536)
    (h : crcShift c = crcShift d) : c = d := by
  unfold crcShift at h
  have hc1 : c >>> 1 = c / 2 := by rw [Nat.shiftRight_eq_div_pow, Nat.pow_one]
  have hd1 : d >>> 1 = d / 2 := by rw [Nat.shiftRight_eq_div_pow, Nat.pow_one]
  by_cases pc : c % 2 = 1 <;> by_cases pd : d % 2 = 1
  · rw [if_pos pc, if_pos pd] at h
    have := Nat.xor_left_injective h
    simp only at this
    omega
  · rw [if_pos pc, if_neg pd] at h
    have := crcShift_odd_ge c hc
    omega
  · rw [if_neg pc, if_pos pd] at h
    have := crcShift_odd_ge d hd
    omega
  · rw [if_neg pc, if_neg pd] at h
    omega

theorem crcByte_lt (c : Nat) (b : Byte) (h : c < 65536) : crcByte c b < 65536 := by
  unfold crcByte
  have hb : b.val < 2 ^ 16 := by have := b.isLt; omega
  have h0 : c ^^^ b.val < 65536 := Nat.xor_lt_two_pow (n := 16) h hb
  exact crcShift_lt _ (crcShift_lt _ (crcShift_lt _ (crcShift_lt _ (crcShift_lt _
    (crcShift_lt _ (crcShift_lt _ (crcShift_lt _ h0)))))))

/-- Two register values, or two bytes, that differ give registers that differ. -/
theorem crcByte_injective (c d : Nat) (a b : Byte) (hc : c < 65536) (hd : d < 65536)
    (h : crcByte c a = crcByte d b) : c ^^^ a.val = d ^^^ b.val := by
  unfold crcByte at h
  have ha : a.val < 2 ^ 16 := by have := a.isLt; omega
  have hb : b.val < 2 ^ 16 := by have := b.isLt; omega
  have x0 : c ^^^ a.val < 65536 := Nat.xor_lt_two_pow (n := 16) hc ha
  have y0 : d ^^^ b.val < 65536 := Nat.xor_lt_two_pow (n := 16) hd hb
  have x1 := crcShift_lt _ x0
  have y1 := crcShift_lt _ y0
  have x2 := crcShift_lt _ x1
  have y2 := crcShift_lt _ y1
  have x3 := crcShift_lt _ x2
  have y3 := crcShift_lt _ y2
  have x4 := crcShift_lt _ x3
  have y4 := crcShift_lt _ y3
  have x5 := crcShift_lt _ x4
  have y5 := crcShift_lt _ y4
  have x6 := crcShift_lt _ x5
  have y6 := crcShift_lt _ y5
  have x7 := crcShift_lt _ x6
  have y7 := crcShift_lt _ y6
  exact crcShift_injective _ _ x0 y0 (crcShift_injective _ _ x1 y1 (crcShift_injective _ _ x2 y2
    (crcShift_injective _ _ x3 y3 (crcShift_injective _ _ x4 y4 (crcShift_injective _ _ x5 y5
    (crcShift_injective _ _ x6 y6 (crcShift_injective _ _ x7 y7 h)))))))

theorem foldl_crcByte_lt (data : List Byte) : ∀ c, c < 65536 → data.foldl crcByte c < 65536 := by
  induction data with
  | nil => intro c h; exact h
  | cons b bs ih => intro c h; exact ih _ (crcByte_lt c b h)

theorem foldl_crcByte_ne (data : List Byte) :
    ∀ c d, c < 65536 → d < 65536 → c ≠ d → data.foldl crcByte c ≠ data.foldl crcByte d := by
  induction data with
  | nil => intro c d _ _ h; exact h
  | cons b bs ih =>
    intro c d hc hd h
    apply ih _ _ (crcByte_lt c b hc) (crcByte_lt d b hd)
    intro he
    exact h (Nat.xor_left_injective (crcByte_injective c d b b hc hd he))

theorem CalculateCRC_X25_lt (data : List Byte) : CalculateCRC_X25 data < 65536 := by
  unfold CalculateCRC_X25
  exact Nat.xor_lt_two_pow (n := 16) (foldl_crcByte_lt data _ (by decide)) (by decide)

/-- Changing one byte of the data changes the checksum. -/
theorem CalculateCRC_X25_ne (pre post : List Byte) (a b : Byte) (h : a ≠ b) :
    CalculateCRC_X25 (pre ++ a :: post) ≠ CalculateCRC_X25 (pre ++ b :: post) := by
  unfold CalculateCRC_X25
  intro he
  have he2 := Nat.xor_left_injective he
  simp only [List.foldl_append, List.foldl_cons] at he2
  have hc := foldl_crcByte_lt pre 0xFFFF (by decide)
  refine foldl_crcByte_ne post _ _ (crcByte_lt _ a hc) (crcByte_lt _ b hc) ?_ he2
  intro h3
  have h4 := Nat.xor_right_injective (crcByte_injective _ _ a b hc hc h3)
  exact h (Fin.ext h4)

theorem GenerateCrc_ne (d1 d2 : List Byte) (h : CalculateCRC_X25 d1 ≠ CalculateCRC_X25 d2) :
    GenerateCrc d1 ≠ GenerateCrc d2 := by
  have h1 := CalculateCRC_X25_lt d1
  have h2 := CalculateCRC_X25_lt d2
  intro he
  unfold GenerateCrc at he
  simp only [Prod.mk.injEq] at he
  have e1 := congrArg Fin.val he.1
  have e2 := congrArg Fin.val he.2
  simp only [toByte, Nat.shiftRight_eq_div_pow] at e1 e2
  omega

/-! ## The checksum field -/

theorem CrcChecker_shape (a b c1 c2 e1 e2 : Byte) (body : List Byte) :
    CrcChecker ([a, b] ++ body ++ [c1, c2, e1, e2]) =
      some (decide ([c1, c2] = [(GenerateCrc body).1, (GenerateCrc body).2])) := by
  have s1 : [a, b] ++ body ++ [c1, c2, e1, e2] = [a, b] ++ (body ++ [c1, c2, e1, e2]) := by simp
  have s2 : [a, b] ++ (body ++ [c1, c2, e1, e2]) =
      ([a, b] ++ body) ++ ([c1, c2] ++ [e1, e2]) := by simp
  unfold CrcChecker
  rw [s1, slice_mid [a, b] body _ _ _ (by simp) (by simp; omega)]
  rw [s2, slice_mid ([a, b] ++ body) [c1, c2] [e1, e2] _ _ (by simp; omega) (by simp; omega)]
  simp

theorem flipBit_ne (b : Byte) (k : Nat) (hk : k < 8) : flipBit b k ≠ b := by
  intro h
  have hb := b.isLt
  have hp : 1 <<< k < 2 ^ 8 := by
    rw [Nat.one_shiftLeft]
    exact Nat.pow_lt_pow_right (by decide) hk
  have hx : b.val ^^^ (1 <<< k) < 2 ^ 8 := Nat.xor_lt_two_pow (by omega) hp
  have hv := congrArg Fin.val h
  simp only [flipBit, toByte] at hv
  rw [Nat.mod_eq_of_lt (by omega)] at hv
  have h0 : 1 <<< k = 0 := by
    have := Nat.xor_cancel_left b.val (1 <<< k)
    rw [hv, Nat.xor_self] at this
    exact this.symm
  rw [Nat.one_shiftLeft] at h0
  exact absurd h0 (by positivity)

/-- A frame with an offset inside the checksummed range, taken apart. -/
theorem frame_split (frame : List Byte) (i : Nat) (h2 : 2 ≤ i) (h4 : i + 4 < frame.length) :
    ∃ m1 m2 c1 c2 e1 e2 x, ∃ A B : List Byte,
      frame = [m1, m2] ++ (A ++ x :: B) ++ [c1, c2, e1, e2] ∧ A.length + 2 = i := by
  have hx : i < frame.length := by omega
  obtain ⟨x, e1⟩ : ∃ x, frame = frame.take i ++ x :: frame.drop (i + 1) :=
    ⟨frame[i], by rw [List.getElem_cons_drop, List.take_append_drop]⟩
  have hlt : (frame.take i).length = i := by rw [List.length_take]; omega
  have hld : (frame.drop (i + 1)).length = frame.length - (i + 1) := List.length_drop _ _
  generalize frame.take i = p at e1 hlt
  generalize frame.drop (i + 1) = t at e1 hld
  obtain ⟨m1, m2, A, hA, hAl⟩ : ∃ m1 m2 A, p = m1 :: m2 :: A ∧ A.length + 2 = i := by
    match p, hlt with
    | [], h => simp at h; omega
    | [_], h => simp at h; omega
    | m1 :: m2 :: A, h => exact ⟨m1, m2, A, rfl, by simpa using h⟩
  obtain ⟨B, c1, c2, e1', e2', hB⟩ : ∃ B c1 c2 e1 e2, t = B ++ [c1, c2, e1, e2] := by
    have et : t = t.take (t.length - 4) ++ t.drop (t.length - 4) :=
      (List.take_append_drop _ _).symm
    have hq : (t.drop (t.length - 4)).length = 4 := by rw [List.length_drop]; omega
    generalize t.drop (t.length - 4) = q at et hq
    match q, hq with
    | [c1, c2, e1, e2], _ => exact ⟨t.take (t.length - 4), c1, c2, e1, e2, et⟩
  refine ⟨m1, m2, c1, c2, e1', e2', x, A, B, ?_, hAl⟩
  rw [e1, hA, hB]
  simp

theorem take_two_drop (l : List Byte) (n : Nat) (x y : Byte) (hx : l[n]? = some x)
    (hy : l[n + 1]? = some y) : (l.drop n).take 2 = [x, y] := by
  induction n generalizing l with
  | zero =>
    match l, hx, hy with
    | a :: b :: t, hx, hy =>
      simp at hx hy
      simp [hx, hy]
  | succ n ih =>
    match l, hx, hy with
    | a :: t, hx, hy =>
      simp at hx hy
      simpa using ih t hx hy

theorem checksum_bytes_iff (x y : Byte) (v : Nat) (hv : v < 65536) :
    [x, y] = [toByte (v >>> 8), toByte v] ↔ (x.val = v / 256 ∧ y.val = v % 256) := by
  have e1 : (toByte (v >>> 8)).val = v / 256 := by
    simp only [toByte, Nat.shiftRight_eq_div_pow]
    omega
  have e2 : (toByte v).val = v % 256 := rfl
  constructor
  · intro h
    simp only [List.cons.injEq, and_true] at h
    exact ⟨by rw [h.1, e1], by rw [h.2, e2]⟩
  · intro h
    have hx : x = toByte (v >>> 8) := Fin.ext (by rw [h.1, e1])
    have hy : y = toByte v := Fin.ext (by rw [h.2, e2])
    rw [hx, hy]

/-- C11. For every payload and every counter value, the checksum field of the
frame of `CreatePackageForDevice` (the two bytes before the end marker) holds the
high and the low byte of the CRC-16/X25 of the bytes from offset 2 up to the
byte before that field, and `CrcChecker` accepts the frame. -/
theorem CreatePackageForDevice_checksum (message : List Byte) (serialNumber : Nat) :
    ∃ frame sn, CreatePackageForDevice message serialNumber = some (frame, sn) ∧
      (frame.drop (frame.length - 4)).take 2 =
        [toByte (CalculateCRC_X25 ((frame.drop 2).take (frame.length - 6)) >>> 8),
         toByte (CalculateCRC_X25 ((frame.drop 2).take (frame.length - 6)))] ∧
      CrcChecker frame = some true := by
  refine ⟨_, _, CreatePackageForDevice_eq message serialNumber, ?_⟩
  generalize (GeneratePackageSN serialNumber).1 = sn
  have hc : CrcChecker (createdFrame message sn) = some true := by
    unfold createdFrame
    exact CrcChecker_framed _ _ _ _ _
  refine ⟨?_, hc⟩
  rw [CrcChecker_of_le _ (by rw [createdFrame_length]; omega)] at hc
  simpa [GenerateCrc] using hc

/-- C12. On a frame of at least 6 bytes `CrcChecker` returns true exactly when
the bytes at offsets `len-4` and `len-3` are the high and the low byte of the
CRC-16/X25 of the bytes from offset 2 up to, exclusive, the last 4 bytes, and
false otherwise. -/
theorem CrcChecker_iff (frame : List Byte) (h : 6 ≤ frame.length) :
    (CrcChecker frame = some true ↔
      ((frame[frame.length - 4]?).map Fin.val =
          some (CalculateCRC_X25 ((frame.drop 2).take (frame.length - 6)) / 256) ∧
        (frame[frame.length - 3]?).map Fin.val =
          some (CalculateCRC_X25 ((frame.drop 2).take (frame.length - 6)) % 256))) ∧
    (CrcChecker frame = some false ↔
      ¬ ((frame[frame.length - 4]?).map Fin.val =
          some (CalculateCRC_X25 ((frame.drop 2).take (frame.length - 6)) / 256) ∧
        (frame[frame.length - 3]?).map Fin.val =
          some (CalculateCRC_X25 ((frame.drop 2).take (frame.length - 6)) % 256))) := by
  have hlt := CalculateCRC_X25_lt ((frame.drop 2).take (frame.length - 6))
  obtain ⟨x, e4⟩ : ∃ x, frame[frame.length - 4]? = some x :=
    ⟨_, List.getElem?_eq_getElem (by omega)⟩
  obtain ⟨y, e3⟩ : ∃ y, frame[frame.length - 3]? = some y :=
    ⟨_, List.getElem?_eq_getElem (by omega)⟩
  have e3' : frame[frame.length - 4 + 1]? = some y := by
    rw [show frame.length - 4 + 1 = frame.length - 3 by omega]; exact e3
  rw [CrcChecker_of_le frame h, take_two_drop frame _ x y e4 e3', e4, e3]
  have key := checksum_bytes_iff x y _ hlt
  simp only [GenerateCrc, Option.map_some', Option.some.injEq, decide_eq_true_eq,
    decide_eq_false_iff_not]
  exact ⟨key, not_congr key⟩

theorem CrcChecker_iff_witness :
    6 ≤ loginFrame.length ∧
    ((CrcChecker loginFrame = some true ↔
      ((loginFrame[loginFrame.length - 4]?).map Fin.val =
          some (CalculateCRC_X25 ((loginFrame.drop 2).take (loginFrame.length - 6)) / 256) ∧
        (loginFrame[loginFrame.length - 3]?).map Fin.val =
          some (CalculateCRC_X25 ((loginFrame.drop 2).take (loginFrame.length - 6)) % 256))) ∧
    (CrcChecker loginFrame = some false ↔
      ¬ ((loginFrame[loginFrame.length - 4]?).map Fin.val =
          some (CalculateCRC_X25 ((loginFrame.drop 2).take (loginFrame.length - 6)) / 256) ∧
        (loginFrame[loginFrame.length - 3]?).map Fin.val =
          some (CalculateCRC_X25 ((loginFrame.drop 2).take (loginFrame.length - 6)) % 256)))) :=
  ⟨by decide, CrcChecker_iff loginFrame (by decide)⟩

theorem flipBitAt_shape (m1 m2 c1 c2 e1 e2 x : Byte) (A B : List Byte) (k : Nat) :
    flipBitAt ([m1, m2] ++ (A ++ x :: B) ++ [c1, c2, e1, e2]) (A.length + 2) k =
      [m1, m2] ++ (A ++ flipBit x k :: B) ++ [c1, c2, e1, e2] := by
  have e : [m1, m2] ++ (A ++ x :: B) ++ [c1, c2, e1, e2] =
      (m1 :: m2 :: A) ++ (x :: (B ++ [c1, c2, e1, e2])) := by simp
  have hl : (m1 :: m2 :: A).length = A.length + 2 := by simp
  have hg : ((m1 :: m2 :: A) ++ (x :: (B ++ [c1, c2, e1, e2])))[A.length + 2]? = some x := by
    rw [List.getElem?_append_right (by omega)]
    simp
  rw [flipBitAt, e, hg]
  simp only
  rw [List.set_append_right _ _ (by omega)]
  simp

/-- C13. When `CrcChecker` accepts a frame, flipping one bit of a byte inside the
checksummed range (offset 2 up to the checksum field, the payload region
included) makes `CrcChecker` return false. -/
theorem CrcChecker_detects_bit_flip (frame : List Byte) (i k : Nat)
    (hc : CrcChecker frame = some true) (h2 : 2 ≤ i) (h4 : i + 4 < frame.length)
    (hk : k < 8) : CrcChecker (flipBitAt frame i k) = some false := by
  obtain ⟨m1, m2, c1, c2, e1, e2, x, A, B, rfl, rfl⟩ := frame_split frame i h2 h4
  rw [flipBitAt_shape, CrcChecker_shape]
  rw [CrcChecker_shape] at hc
  have hne := GenerateCrc_ne _ _ (CalculateCRC_X25_ne A B (flipBit x k) x (flipBit_ne x k hk))
  simp only [Option.some.injEq, decide_eq_true_eq, List.cons.injEq, and_true] at hc
  simp only [Option.some.injEq, decide_eq_false_iff_not, List.cons.injEq, and_true]
  intro h
  apply hne
  exact Prod.ext (h.1.symm.trans hc.1) (h.2.symm.trans hc.2)

theorem CrcChecker_detects_bit_flip_witness :
    CrcChecker loginFrame = some true ∧ 2 ≤ 5 ∧ 5 + 4 < loginFrame.length ∧ 0 < 8 ∧
    CrcChecker (flipBitAt loginFrame 5 0) = some false :=
  ⟨by decide, by decide, by decide, by decide,
    CrcChecker_detects_bit_flip loginFrame 5 0 (by decide) (by decide) (by decide) (by decide)⟩

/-! ## Opcodes outside the allow-list -/

/-- C14. The frames `78 78 05 2C 00 01 25 98 0D 0A` and
`78 78 05 27 00 01 0C 3E 0D 0A` have a recognised start marker, the end marker,
a matching checksum and the catalog opcodes 0x2C and 0x27 at the opcode offset,
and `ValidatePackage` rejects both: the two opcodes are absent from
`validPackage`. -/
theorem ValidatePackage_rejects_catalog_opcodes :
    ParserWifiInformation ∉ validPackage ∧ ParserAlarmX3V2 ∉ validPackage ∧
    (ValidateStartBytes wifiFrame = some true ∧ ValidateEndBytes wifiFrame = some true ∧
      CrcChecker wifiFrame = some true ∧
      GetPackageType wifiFrame = some ParserWifiInformation ∧
      ValidatePackage wifiFrame = some false) ∧
    (ValidateStartBytes alarmV2Frame = some true ∧ ValidateEndBytes alarmV2Frame = some true ∧
      CrcChecker alarmV2Frame = some true ∧
      GetPackageType alarmV2Frame = some ParserAlarmX3V2 ∧
      ValidatePackage alarmV2Frame = some false) := by
  decide

/-! ## The splitter always returns -/

/-- The function `SplitPackage` returns a result on every buffer and every accumulator. -/
theorem SplitPackage_total (n : Nat) :
    ∀ (input : List Byte) (acc : List (List Byte)), input.length ≤ n →
      ∃ frames, SplitPackage input acc = some frames := by
  induction n with
  | zero =>
    intro input acc h
    rw [SplitPackage_unfold, SplitPackageBody_short _ _ _ (by omega)]
    exact ⟨_, rfl⟩
  | succ n ih =>
    intro input acc h
    rw [SplitPackage_unfold]
    by_cases h10 : input.length < 10
    · rw [SplitPackageBody_short _ _ _ h10]
      exact ⟨_, rfl⟩
    · by_cases hm : input.take 2 = [0x78, 0x78] ∨ input.take 2 = [0x79, 0x79]
      · rw [SplitPackageBody_frame _ _ _ (by omega) hm]
        have hge := headerLen_ge input
        split
        · exact ⟨_, rfl⟩
        · split
          · obtain ⟨v, hv⟩ := ValidatePackage_total (input.take (headerLen input).toNat)
              (by simp; omega)
            rw [hv]
            exact ih _ _ (by simp; omega)
          · exact ⟨_, rfl⟩
      · rw [SplitPackageBody_marker _ _ _ (by omega) (fun e => hm (Or.inl e))
          (fun e => hm (Or.inr e))]
        exact ⟨_, rfl⟩

/-- C15. For every buffer and every accumulator `SplitPackage` returns a list of
frames: no index or slice expression of it, or of the `ValidatePackage` call on
the candidate `input[:L]`, leaves its range.  The result is the one of the body
whose recursive call aborts on every buffer that is not strictly shorter than
`input`, so each recursive call is on a strictly shorter buffer. -/
theorem SplitPackage_never_aborts (input : List Byte) (acc : List (List Byte)) :
    (∃ frames, SplitPackage input acc = some frames) ∧
    SplitPackage input acc =
      SplitPackageBody
        (fun rest arr => if rest.length < input.length then SplitPackage rest arr else none)
        input acc := by
  refine ⟨SplitPackage_total input.length input acc (le_refl _), ?_⟩
  rw [SplitPackage_unfold]
  apply SplitPackageBody_congr
  intro rest arr hr
  rw [if_pos hr]

/-! ## The validator on short sequences -/

theorem ValidatePackage_two (a b : Byte) : ValidatePackage [a, b] = some false := by
  have hs := ValidateStartBytes_of_le [a, b] (by simp)
  have he := ValidateEndBytes_of_le [a, b] (by simp)
  rw [ValidatePackage, hs, he]
  by_cases h1 : (a = 0x78 ∧ b = 0x78) ∨ (a = 0x79 ∧ b = 0x79) ∨ (a = 0x70 ∧ b = 0x70)
  · have h2 : ¬ (a = 0x0d ∧ b = 0x0a) := by
      rintro ⟨rfl, rfl⟩
      revert h1
      decide
    simp [goAnd, h1, h2]
  · simp [goAnd, h1]

theorem ValidatePackage_three (a b c : Byte) : ValidatePackage [a, b, c] = some false := by
  have hs := ValidateStartBytes_of_le [a, b, c] (by simp)
  have he := ValidateEndBytes_of_le [a, b, c] (by simp)
  rw [ValidatePackage, hs, he]
  by_cases h1 : (a = 0x78 ∧ b = 0x78) ∨ (a = 0x79 ∧ b = 0x79) ∨ (a = 0x70 ∧ b = 0x70)
  · have h2 : ¬ (b = 0x0d ∧ c = 0x0a) := by
      rintro ⟨rfl, rfl⟩
      rcases h1 with h | h | h <;> exact absurd h.2 (by decide)
    simp [goAnd, h1, h2]
  · simp [goAnd, h1]

theorem GetPackageType_four (a b c d : Byte) :
    GetPackageType [a, b, c, d] = if a = 0x79 ∧ b = 0x79 then none else some d := by
  have hl := IsLongPackage_of_le [a, b] (by simp)
  have hg := GetStartBytes_of_le [a, b, c, d] (by simp)
  simp only [List.take_succ_cons, List.take_zero, List.take_nil] at hl hg
  simp only [GetPackageType, hg, hl, Option.bind_eq_bind, Option.some_bind, Option.pure_def]
  by_cases hc : a = 0x79 ∧ b = 0x79
  · simp [hc, index]
  · simp [hc, index]

theorem ValidatePackage_four (a b c d : Byte) :
    ValidatePackage [a, b, c, d] =
      if a = 0x79 ∧ b = 0x79 ∧ c = 0x0d ∧ d = 0x0a then none else some false := by
  have hs := ValidateStartBytes_of_le [a, b, c, d] (by simp)
  have he := ValidateEndBytes_of_le [a, b, c, d] (by simp)
  have n10 : (10 : Byte) ∉ validPackage := by decide
  rw [ValidatePackage, hs, he, GetPackageType_four]
  by_cases h2 : c = 0x0d ∧ d = 0x0a
  · obtain ⟨rfl, rfl⟩ := h2
    by_cases h1 : a = 0x79 ∧ b = 0x79
    · obtain ⟨rfl, rfl⟩ := h1
      simp [goAnd]
    · by_cases h3 : (a = 0x78 ∧ b = 0x78) ∨ (a = 0x70 ∧ b = 0x70)
      · have h1' : ¬ (a = 0x79 ∧ b = 0x79 ∧ (13 : Byte) = 0x0d ∧ (10 : Byte) = 0x0a) :=
          fun h => h1 ⟨h.1, h.2.1⟩
        simp [goAnd, h1, h3, n10]
      · have h3a : ¬ (a = 0x78 ∧ b = 0x78) := fun h => h3 (Or.inl h)
        have h3b : ¬ (a = 0x70 ∧ b = 0x70) := fun h => h3 (Or.inr h)
        simp [goAnd, h1, h3a, h3b]
  · have h2' : ¬ (a = 0x79 ∧ b = 0x79 ∧ c = 0x0d ∧ d = 0x0a) := fun h => h2 h.2.2
    by_cases h1 : (a = 0x78 ∧ b = 0x78) ∨ (a = 0x79 ∧ b = 0x79) ∨ (a = 0x70 ∧ b = 0x70)
    · simp [goAnd, h1, h2, h2']
    · simp [goAnd, h1, h2, h2']

/-- C16. The function `ValidatePackage` panics exactly on the sequences of fewer than 2
bytes (the slice `input[:2]` of `GetStartBytes`) and on `79 79 0D 0A` (the
index `input[4]` of `GetPackageType`); the empty sequence is among them. -/
theorem ValidatePackage_panics (frame : List Byte) :
    (ValidatePackage frame = none ↔
      (frame.length < 2 ∨ frame = [0x79, 0x79, 0x0d, 0x0a])) ∧
    ValidatePackage [] = none := by
  refine ⟨?_, by decide⟩
  match frame with
  | [] => simp; decide
  | [a] => simp; rfl
  | [a, b] => simp [ValidatePackage_two]
  | [a, b, c] => simp [ValidatePackage_three]
  | [a, b, c, d] =>
    rw [ValidatePackage_four]
    by_cases h : a = 0x79 ∧ b = 0x79 ∧ c = 0x0d ∧ d = 0x0a
    · simp [h]
    · simp only [if_neg h]
      simp
      tauto
  | a :: b :: c :: d :: e :: r =>
    obtain ⟨v, hv⟩ := ValidatePackage_total (a :: b :: c :: d :: e :: r) (by simp)
    rw [hv]
    simp

/-! ## The emitted frames are segments of the buffer -/

/-- The invariant of the splitter: every frame emitted so far is as long as its
header declares and starts with a Normal or a Long marker, and the emitted
frames are among the consecutive segments that make up the bytes consumed so
far, in the order of the segments. -/
theorem SplitPackage_segments (n : Nat) :
    ∀ (input consumed : List Byte) (acc segs : List (List Byte)), input.length ≤ n →
      (∀ f ∈ acc, (f.length : Int) = headerLen f ∧
        (f.take 2 = [0x78, 0x78] ∨ f.take 2 = [0x79, 0x79])) →
      consumed = segs.flatten → acc.Sublist segs →
      ∃ frames, SplitPackage input acc = some frames ∧
        (∀ f ∈ frames, (f.length : Int) = headerLen f ∧
          (f.take 2 = [0x78, 0x78] ∨ f.take 2 = [0x79, 0x79])) ∧
        ∃ segs2 tail, consumed ++ input = segs2.flatten ++ tail ∧ frames.Sublist segs2 := by
  induction n with
  | zero =>
    intro input consumed acc segs h hacc hc hs
    rw [SplitPackage_unfold, SplitPackageBody_short _ _ _ (by omega)]
    exact ⟨acc, rfl, hacc, segs, input, by rw [hc], hs⟩
  | succ n ih =>
    intro input consumed acc segs h hacc hc hs
    have stay : ∃ frames, some acc = some frames ∧
        (∀ f ∈ frames, (f.length : Int) = headerLen f ∧
          (f.take 2 = [0x78, 0x78] ∨ f.take 2 = [0x79, 0x79])) ∧
        ∃ segs2 tail, consumed ++ input = segs2.flatten ++ tail ∧ frames.Sublist segs2 :=
      ⟨acc, rfl, hacc, segs, input, by rw [hc], hs⟩
    rw [SplitPackage_unfold]
    by_cases h10 : input.length < 10
    · rw [SplitPackageBody_short _ _ _ h10]
      exact stay
    · by_cases hm : input.take 2 = [0x78, 0x78] ∨ input.take 2 = [0x79, 0x79]
      · rw [SplitPackageBody_frame _ _ _ (by omega) hm]
        have hge := headerLen_ge input
        split
        · next heq =>
          refine ⟨acc ++ [input], rfl, ?_, segs ++ [input], [], ?_, ?_⟩
          · intro f hf
            rcases List.mem_append.1 hf with hf | hf
            · exact hacc f hf
            · rw [List.mem_singleton.1 hf]
              exact ⟨heq, hm⟩
          · simp [hc]
          · exact List.Sublist.append hs (List.Sublist.refl _)
        · split
          · next hne hgt =>
            obtain ⟨L, hL⟩ : ∃ L : Nat, headerLen input = (L : Int) :=
              ⟨(headerLen input).toNat, by omega⟩
            have hLt : L < input.length := by omega
            have hL5 : 5 ≤ L := by omega
            rw [hL]
            simp only [Int.toNat_ofNat]
            have htl : (input.take L).length = L := by rw [List.length_take]; omega
            obtain ⟨v, hv⟩ := ValidatePackage_total (input.take L) (by omega)
            rw [hv]
            have hsplit : input = input.take L ++ input.drop L := (List.take_append_drop _ _).symm
            have hcand : ((input.take L).length : Int) = headerLen (input.take L) ∧
                ((input.take L).take 2 = [0x78, 0x78] ∨ (input.take L).take 2 = [0x79, 0x79]) := by
              constructor
              · have := headerLen_append (input.take L) (input.drop L) (by omega)
                rw [← hsplit] at this
                rw [← this, htl, hL]
              · rw [List.take_take, Nat.min_eq_left (by omega)]
                exact hm
            have hrest : (input.drop L).length ≤ n := by rw [List.length_drop]; omega
            have hcons : consumed ++ input.take L = (segs ++ [input.take L]).flatten := by
              simp [hc]
            have key : ∀ acc2 : List (List Byte),
                (∀ f ∈ acc2, (f.length : Int) = headerLen f ∧
                  (f.take 2 = [0x78, 0x78] ∨ f.take 2 = [0x79, 0x79])) →
                acc2.Sublist (segs ++ [input.take L]) →
                ∃ frames, SplitPackage (input.drop L) acc2 = some frames ∧
                  (∀ f ∈ frames, (f.length : Int) = headerLen f ∧
                    (f.take 2 = [0x78, 0x78] ∨ f.take 2 = [0x79, 0x79])) ∧
                  ∃ segs2 tail, consumed ++ input = segs2.flatten ++ tail ∧
                    frames.Sublist segs2 := by
              intro acc2 h1 h2
              have := ih (input.drop L) (consumed ++ input.take L) acc2 (segs ++ [input.take L])
                hrest h1 hcons h2
              rwa [List.append_assoc, List.take_append_drop] at this
            cases v with
            | true =>
              simp only [if_true]
              apply key
              · intro f hf
                rcases List.mem_append.1 hf with hf | hf
                · exact hacc f hf
                · rw [List.mem_singleton.1 hf]
                  exact hcand
              · exact List.Sublist.append hs (List.Sublist.refl _)
            | false =>
              simp only [Bool.false_eq_true, if_false]
              exact key acc hacc (List.sublist_append_of_sublist_left hs)
          · exact stay
      · rw [SplitPackageBody_marker _ _ _ (by omega) (fun e => hm (Or.inl e))
          (fun e => hm (Or.inr e))]
        exact stay

/-- C17. On every buffer `SplitPackage(input, [])` returns a list of frames; each
of them is as long as its own header declares (length byte plus 5 behind a
Normal marker, big-endian pair plus 6 behind a Long marker) and starts with a
Normal or a Long marker; and the frames are, in their order, among the
consecutive segments of a cut of `input` into segments and a tail, so they do
not overlap and their offsets increase. -/
theorem SplitPackage_frames_in_order (input : List Byte) :
    ∃ frames, SplitPackage input [] = some frames ∧
      (∀ f ∈ frames, (f.length : Int) = headerLen f ∧ f ≠ [] ∧
        (f.take 2 = [0x78, 0x78] ∨ f.take 2 = [0x79, 0x79])) ∧
      ∃ segs tail, input = segs.flatten ++ tail ∧ frames.Sublist segs := by
  obtain ⟨frames, h1, h2, segs, tail, h3, h4⟩ :=
    SplitPackage_segments input.length input [] [] [] (le_refl _)
      (by intro f hf; cases hf) rfl (List.Sublist.refl _)
  refine ⟨frames, h1, ?_, segs, tail, by simpa using h3, h4⟩
  intro f hf
  obtain ⟨a, b⟩ := h2 f hf
  refine ⟨a, ?_, b⟩
  intro he
  rw [he] at b
  simp at b

/-! ## Sequence number and device identifier -/

/-- C18. On the 14-byte frame whose bytes 12 and 13 are `00 0A` the text of
`GetPackageSn` is `000a` and `GetPackageSnInNumber` returns 0, not 10; on the
frame whose bytes 12 and 13 are `00 10` it returns 10, not 16: the text is read
in base 10. -/
theorem GetPackageSnInNumber_reads_base_ten :
    GetPackageSn (snFrame 0x00 0x0a) = some ['0', '0', '0', 'a'] ∧
    GetPackageSnInNumber (snFrame 0x00 0x0a) = some 0 ∧
    GetPackageSn (snFrame 0x00 0x10) = some ['0', '0', '1', '0'] ∧
    GetPackageSnInNumber (snFrame 0x00 0x10) = some 10 ∧
    GetPackageSnInNumber (snFrame 0x12 0x34) = some 1234 := by
  refine ⟨by decide, by decide, by decide, by decide, by decide⟩

theorem sliceOf_of_le {α : Type} (s : List α) (lo hi : Nat) (h1 : lo ≤ hi) (h2 : hi ≤ s.length) :
    sliceOf s (lo : Int) (hi : Int) = some ((s.drop lo).take (hi - lo)) := by
  have h : (0 : Int) ≤ lo ∧ (lo : Int) ≤ hi ∧ (hi : Int) ≤ s.length := by omega
  simp only [sliceOf, if_pos h, Int.toNat_ofNat]

theorem foldl_append_flatten {α β : Type} (f : α → List β) (l : List α) :
    ∀ init : List β, l.foldl (fun result item => result ++ f item) init =
      init ++ (l.map f).flatten := by
  induction l with
  | nil => intro init; simp
  | cons a t ih => intro init; simp [ih]

theorem foldl_append_self {β : Type} (l : List (List β)) :
    ∀ init : List β, l.foldl (fun result item => result ++ item) init = init ++ l.flatten := by
  induction l with
  | nil => intro init; simp
  | cons a t ih => intro init; simp [ih]

theorem ConvertByteToHex_eq (input : List Byte) :
    ConvertByteToHex input = input.map sprintf02x := by
  have key : ∀ init : List (List Char),
      input.foldl (fun arr item => arr ++ [sprintf02x item]) init =
        init ++ input.map sprintf02x := by
    induction input with
    | nil => intro init; simp
    | cons a t ih => intro init; simp [ih]
  simpa [ConvertByteToHex] using key []

theorem length_flatten_sprintf02x (l : List Byte) :
    ((l.map sprintf02x).flatten).length = 2 * l.length := by
  induction l with
  | nil => rfl
  | cons a t ih =>
    simp only [List.map_cons, List.flatten_cons, List.length_append, ih, List.length_cons]
    simp only [sprintf02x, List.length_cons, List.length_nil]
    omega

/-- The text of `GetPackageSn` on a frame of at least 14 bytes: the two hex
digits of the byte at offset 12, then those of the byte at offset 13. -/
theorem GetPackageSn_eq (frame : List Byte) (h : 14 ≤ frame.length) :
    GetPackageSn frame = some (((frame.drop 12).take 2).map sprintf02x).flatten := by
  have hs := sliceOf_of_le (frame.map sprintf02x) 12 14 (by omega) (by simpa using h)
  simp only [Nat.cast_ofNat] at hs
  simp only [GetPackageSn, ConvertByteToHex_eq, hs, Option.bind_eq_bind, Option.some_bind,
    Option.pure_def, foldl_append_self]
  simp [List.map_drop, List.map_take]

theorem LeftPad2Len_fifteen (s : List Char) (h : s.length = 15) :
    LeftPad2Len s ['0'] 15 = some s := by
  have e1 : Int.tdiv ((15 : Int) - ((['0'] : List Char).length : Int))
      ((['0'] : List Char).length : Int) = 14 := by decide
  have e3 : (List.replicate 15 '0').length = 15 := by decide
  have hs := sliceOf_of_le (List.replicate 15 '0' ++ s) 15 30 (by omega)
    (by rw [List.length_append, e3, h])
  simp only [Nat.cast_ofNat] at hs
  simp only [LeftPad2Len, e1]
  simp only [List.length_singleton, one_ne_zero, if_false]
  norm_num
  rw [h]
  show sliceOf (List.replicate 15 '0' ++ s) 15 30 = some s
  rw [hs, List.drop_left' e3]
  simp [h]

theorem hexDigit_mem (d : Nat) (h : d < 16) :
    hexDigit d ∈ ['0', '1', '2', '3', '4', '5', '6', '7', '8', '9',
      'a', 'b', 'c', 'd', 'e', 'f'] := by
  have key : ∀ e : Fin 16, hexDigit e.val ∈ ['0', '1', '2', '3', '4', '5', '6', '7', '8', '9',
      'a', 'b', 'c', 'd', 'e', 'f'] := by decide
  exact key ⟨d, h⟩

theorem GetDeviceImei_eq (frame : List Byte) (h : 12 ≤ frame.length) :
    GetDeviceImei frame = some ((((frame.drop 4).take 8).map sprintf02x).flatten.drop 1) := by
  have hs := slice_of_le frame 4 12 (by omega) h
  simp only [Nat.cast_ofNat] at hs
  have hl : ((frame.drop 4).take 8).length = 8 := by
    rw [List.length_take, List.length_drop]
    omega
  have hr : ((((frame.drop 4).take 8).map sprintf02x).flatten).length = 16 := by
    rw [length_flatten_sprintf02x, hl]
  have h1 := sliceOf_of_le ((((frame.drop 4).take 8).map sprintf02x).flatten) 1 16 (by omega)
    (by omega)
  simp only [Nat.cast_ofNat, Nat.cast_one] at h1
  have h2 : ((((frame.drop 4).take 8).map sprintf02x).flatten.drop 1).length = 15 := by
    rw [List.length_drop, hr]
  have h3 : (((((frame.drop 4).take 8).map sprintf02x).flatten.drop 1).take (16 - 1)) =
      (((frame.drop 4).take 8).map sprintf02x).flatten.drop 1 :=
    List.take_of_length_le (by omega)
  simp only [GetDeviceImei, hs, Option.bind_eq_bind, Option.some_bind, foldl_append_flatten,
    List.nil_append, hr]
  show (sliceOf (((frame.drop 4).take 8).map sprintf02x).flatten 1 16).bind
    (fun x => LeftPad2Len x ['0'] 15) = _
  rw [h1, Option.some_bind, h3, LeftPad2Len_fifteen _ h2]

/-- C19. On a frame of at least 12 bytes `GetDeviceImei` returns a string of
exactly 15 characters: the 16 lowercase hex digits of the 8 bytes at offsets 4
to 11 without the first of them. -/
theorem GetDeviceImei_fifteen_digits (frame : List Byte) (h : 12 ≤ frame.length) :
    ∃ imei, GetDeviceImei frame = some imei ∧ imei.length = 15 ∧
      ((frame.drop 4).take 8).length = 8 ∧
      imei = ((((frame.drop 4).take 8).map
        (fun b => [hexDigit (b.val / 16), hexDigit (b.val % 16)])).flatten).drop 1 ∧
      ∀ c ∈ imei, c ∈ ['0', '1', '2', '3', '4', '5', '6', '7', '8', '9',
        'a', 'b', 'c', 'd', 'e', 'f'] := by
  have hl : ((frame.drop 4).take 8).length = 8 := by
    rw [List.length_take, List.length_drop]
    omega
  refine ⟨_, GetDeviceImei_eq frame h, ?_, hl, rfl, ?_⟩
  · rw [List.length_drop, length_flatten_sprintf02x, hl]
  · intro c hc
    have hc2 := List.mem_of_mem_drop hc
    obtain ⟨l, hl1, hl2⟩ := List.mem_flatten.1 hc2
    obtain ⟨b, -, rfl⟩ := List.mem_map.1 hl1
    have hb := b.isLt
    simp only [sprintf02x, List.mem_cons, List.mem_singleton, List.not_mem_nil, or_false] at hl2
    rcases hl2 with rfl | rfl
    · exact hexDigit_mem _ (by omega)
    · exact hexDigit_mem _ (by omega)

theorem GetDeviceImei_fifteen_digits_witness :
    12 ≤ imeiFrame.length ∧
    ∃ imei, GetDeviceImei imeiFrame = some imei ∧ imei.length = 15 ∧
      ((imeiFrame.drop 4).take 8).length = 8 ∧
      imei = ((((imeiFrame.drop 4).take 8).map
        (fun b => [hexDigit (b.val / 16), hexDigit (b.val % 16)])).flatten).drop 1 ∧
      ∀ c ∈ imei, c ∈ ['0', '1', '2', '3', '4', '5', '6', '7', '8', '9',
        'a', 'b', 'c', 'd', 'e', 'f'] :=
  ⟨by decide, GetDeviceImei_fifteen_digits imeiFrame (by decide)⟩

end Concox
